import Mathlib

/-!
# Verification of `js-stream-dataset-json` (src/src/class/datasetJson.ts)

This file is a shallow embedding in Lean 4 of the streaming Dataset-JSON
reader/writer implemented in `src/src/class/datasetJson.ts`, together with
theorems settling the specification claims about it.

Modelling conventions:
* JavaScript values flowing through the code (cells of a row, metadata
  attribute values) are modelled by the inductive type `DSJ.JsonValue`.
  JavaScript numbers are restricted to integers (the library treats cell
  values opaquely, so floating point formatting is irrelevant to the claims).
* `JSON.stringify` / `JSON.parse` (external to the repository) are modelled by
  an executable serializer `DSJ.stringify` and an executable recursive-descent
  reader `DSJ.parseStr`, with a proved inversion theorem.  The reader model
  does not skip insignificant whitespace: every document the library itself
  produces (and every document used in the theorems below) is whitespace-free.
* File streams, `readline` and the `JSONStream` event parser are external
  collaborators; they are modelled at the event level (a list of emitted rows
  resp. lines), computed from the document text by the functions `DSJ.rlLines`
  and `DSJ.docViewOf`.  gzip (de)compression is modelled as lossless transport:
  a compressed session reads/writes the same character content as an NDJSON
  session (the constructor forces the NDJSON branch for compressed files).
* The mutable `DatasetJson` class instance is modelled as an explicit
  `DSJ.Session` (read side) / `DSJ.WriteSession` (write side) threaded through
  the operations; rejected promises / thrown errors are `Except.error` carrying
  the exact message string built by the source.
-/

namespace DSJ

/-! ## JSON values

A mutual inductive is used (instead of nesting `List`) so that structural
recursion and induction behave well. -/

mutual

inductive JsonValue where
  | jnull : JsonValue
  | jbool (b : Bool) : JsonValue
  | jint (n : Int) : JsonValue
  | jstr (s : String) : JsonValue
  | jarr (items : JsonArr) : JsonValue
  | jobj (fields : JsonObj) : JsonValue
deriving DecidableEq

inductive JsonArr where
  | nil : JsonArr
  | cons (v : JsonValue) (rest : JsonArr) : JsonArr
deriving DecidableEq

inductive JsonObj where
  | nil : JsonObj
  | cons (k : String) (v : JsonValue) (rest : JsonObj) : JsonObj
deriving DecidableEq

end

open JsonValue

/-- Convert a `List` of values to the mutual-inductive array spine. -/
def arrOfList : List JsonValue → JsonArr
  | [] => .nil
  | v :: rest => .cons v (arrOfList rest)

/-- Convert the array spine back to a `List`. -/
def listOfArr : JsonArr → List JsonValue
  | .nil => []
  | .cons v rest => v :: listOfArr rest

/-- Convert a `List` of key/value pairs to the object spine. -/
def objOfList : List (String × JsonValue) → JsonObj
  | [] => .nil
  | (k, v) :: rest => .cons k v (objOfList rest)

/-- Convert the object spine back to a `List` of key/value pairs. -/
def listOfObj : JsonObj → List (String × JsonValue)
  | .nil => []
  | .cons k v rest => (k, v) :: listOfObj rest

theorem listOfArr_arrOfList (l : List JsonValue) : listOfArr (arrOfList l) = l := by
  induction l with
  | nil => rfl
  | cons v rest ih => simp [arrOfList, listOfArr, ih]

theorem listOfObj_objOfList (l : List (String × JsonValue)) :
    listOfObj (objOfList l) = l := by
  induction l with
  | nil => rfl
  | cons kv rest ih => cases kv; simp [objOfList, listOfObj, ih]

/-! ## Serialization: a model of `JSON.stringify` (compact form, integers only) -/

/-- The decimal digit character for `n < 10`. -/
def digitChar (n : Nat) : Char := Char.ofNat (48 + n)

/-- Lowercase hex digit character for `n < 16` (as emitted in `\u00XX`). -/
def hexDigitChar (n : Nat) : Char :=
  if n < 10 then Char.ofNat (48 + n) else Char.ofNat (87 + n)

/-- Decimal digits, most significant first, with a fuel argument bounding the
number of divisions (structural recursion, so that the kernel evaluates it). -/
def natCharsF : Nat → Nat → List Char
  | 0, n => [digitChar n]
  | fuel + 1, n =>
    if n < 10 then [digitChar n]
    else natCharsF fuel (n / 10) ++ [digitChar (n % 10)]

/-- Decimal digits of a natural number, most significant first. -/
def natChars (n : Nat) : List Char :=
  natCharsF n n

theorem natCharsF_mono : ∀ (n f1 f2 : Nat), n ≤ f1 → n ≤ f2 →
    natCharsF f1 n = natCharsF f2 n := by
  intro n
  induction n using Nat.strong_induction_on with
  | _ n ih =>
    intro f1 f2 h1 h2
    match f1, f2 with
    | 0, 0 => rfl
    | 0, b + 1 =>
      have hn : n = 0 := by omega
      subst hn
      rw [natCharsF, natCharsF, if_pos (by omega)]
    | a + 1, 0 =>
      have hn : n = 0 := by omega
      subst hn
      rw [natCharsF, natCharsF, if_pos (by omega)]
    | a + 1, b + 1 =>
      by_cases h : n < 10
      · simp only [natCharsF, if_pos h]
      · simp only [natCharsF, if_neg h]
        have hlt : n / 10 < n := Nat.div_lt_self (by omega) (by omega)
        rw [ih (n / 10) hlt a b (by omega) (by omega)]

theorem natCharsF_fuel (fuel n : Nat) (h : n ≤ fuel) : natCharsF fuel n = natChars n :=
  natCharsF_mono n fuel n h le_rfl

/-- The defining recursion of `natChars`. -/
theorem natChars_eqn (n : Nat) : natChars n =
    if n < 10 then [digitChar n] else natChars (n / 10) ++ [digitChar (n % 10)] := by
  by_cases h : n < 10
  · rw [if_pos h, natChars]
    cases n with
    | zero => rfl
    | succ m => rw [natCharsF, if_pos h]
  · rw [if_neg h, natChars]
    cases n with
    | zero => omega
    | succ m =>
      rw [natCharsF, if_neg h]
      have hd : (m + 1) / 10 ≤ m := by
        have hlt : (m + 1) / 10 < m + 1 := Nat.div_lt_self (by omega) (by omega)
        omega
      rw [natCharsF_fuel m _ hd]

/-- Decimal representation of an integer (JS number serialization,
restricted to integers). -/
def intChars (n : Int) : List Char :=
  if n < 0 then '-' :: natChars n.natAbs else natChars n.toNat

/-- JSON string escaping of one character, as performed by `JSON.stringify`:
quote, backslash and the common control characters get two-character escapes,
the remaining control characters get a `\u00XX` escape, everything else is
emitted verbatim. -/
def escChar (c : Char) : List Char :=
  if c = '"' then ['\\', '"']
  else if c = '\\' then ['\\', '\\']
  else if c = '\n' then ['\\', 'n']
  else if c = '\r' then ['\\', 'r']
  else if c = '\t' then ['\\', 't']
  else if c = '\x08' then ['\\', 'b']
  else if c = '\x0c' then ['\\', 'f']
  else if c.toNat < 32 then
    ['\\', 'u', '0', '0', hexDigitChar (c.toNat / 16), hexDigitChar (c.toNat % 16)]
  else [c]

/-- JSON string escaping of a character sequence. -/
def escStr : List Char → List Char
  | [] => []
  | c :: rest => escChar c ++ escStr rest

/-- Serialization of a JSON string literal (quotes included). -/
def strLit (s : String) : List Char := '"' :: (escStr s.data ++ ['"'])

mutual

/-- Characters of the compact JSON serialization of a value. -/
def strV : JsonValue → List Char
  | .jnull => ['n', 'u', 'l', 'l']
  | .jbool true => ['t', 'r', 'u', 'e']
  | .jbool false => ['f', 'a', 'l', 's', 'e']
  | .jint n => intChars n
  | .jstr s => strLit s
  | .jarr a => '[' :: (strA a ++ [']'])
  | .jobj o => '{' :: (strO o ++ ['}'])

/-- Comma-separated serialization of array elements (no brackets). -/
def strA : JsonArr → List Char
  | .nil => []
  | .cons v .nil => strV v
  | .cons v (.cons w rest) => strV v ++ ',' :: strA (.cons w rest)

/-- Comma-separated serialization of object members (no braces). -/
def strO : JsonObj → List Char
  | .nil => []
  | .cons k v .nil => strLit k ++ ':' :: strV v
  | .cons k v (.cons k' w rest) => strLit k ++ ':' :: strV v ++ ',' :: strO (.cons k' w rest)

end

/-- `JSON.stringify` model (compact). -/
def stringify (v : JsonValue) : String := ⟨strV v⟩

/-! ## Parsing: a model of `JSON.parse`

The reader is a fueled recursive-descent reader over the character list.  It
does not skip insignificant whitespace: every document this library writes
(and every document appearing in a theorem below) is whitespace-free. -/

/-- Decimal digit test. -/
def isDigitCh (c : Char) : Bool := 48 ≤ c.toNat && c.toNat ≤ 57

/-- Decimal digit value. -/
def digitVal (c : Char) : Nat := c.toNat - 48

/-- Hex digit value (`0-9`, `a-f`, `A-F`). -/
def hexVal (c : Char) : Option Nat :=
  if isDigitCh c then some (digitVal c)
  else if 97 ≤ c.toNat && c.toNat ≤ 102 then some (c.toNat - 87)
  else if 65 ≤ c.toNat && c.toNat ≤ 70 then some (c.toNat - 55)
  else none

/-- Consume a maximal run of decimal digits, extending the accumulator. -/
def pDigits : List Char → Nat → Nat × List Char
  | [], acc => (acc, [])
  | c :: rest, acc =>
    if isDigitCh c then pDigits rest (acc * 10 + digitVal c) else (acc, c :: rest)

/-- Read a natural number (at least one digit required). -/
def pNat (cs : List Char) : Option (Nat × List Char) :=
  match cs with
  | [] => none
  | c :: _ => if isDigitCh c then some (pDigits cs 0) else none

/-- Read an integer (optional leading minus sign). -/
def pInt (cs : List Char) : Option (Int × List Char) :=
  match cs with
  | '-' :: rest => (pNat rest).map (fun p => (-(p.1 : Int), p.2))
  | _ => (pNat cs).map (fun p => ((p.1 : Int), p.2))

/-- Read the body of a string literal (after the opening quote), returning the
decoded characters and the input following the closing quote. -/
def pStrBody (cs : List Char) : Option (List Char × List Char) :=
  match cs with
  | [] => none
  | c :: rest =>
    if c = '"' then some ([], rest)
    else if c = '\\' then
      match rest with
      | [] => none
      | e :: rest' =>
        if e = '"' then (pStrBody rest').map (fun p => ('"' :: p.1, p.2))
        else if e = '\\' then (pStrBody rest').map (fun p => ('\\' :: p.1, p.2))
        else if e = '/' then (pStrBody rest').map (fun p => ('/' :: p.1, p.2))
        else if e = 'n' then (pStrBody rest').map (fun p => ('\n' :: p.1, p.2))
        else if e = 'r' then (pStrBody rest').map (fun p => ('\r' :: p.1, p.2))
        else if e = 't' then (pStrBody rest').map (fun p => ('\t' :: p.1, p.2))
        else if e = 'b' then (pStrBody rest').map (fun p => ('\x08' :: p.1, p.2))
        else if e = 'f' then (pStrBody rest').map (fun p => ('\x0c' :: p.1, p.2))
        else if e = 'u' then
          match rest' with
          | h1 :: h2 :: h3 :: h4 :: rest'' =>
            match hexVal h1, hexVal h2, hexVal h3, hexVal h4 with
            | some a, some b, some c3, some d =>
              (pStrBody rest'').map
                (fun p => (Char.ofNat (a * 4096 + b * 256 + c3 * 16 + d) :: p.1, p.2))
            | _, _, _, _ => none
          | _ => none
        else none
    else (pStrBody rest).map (fun p => (c :: p.1, p.2))

mutual

/-- Fueled value reader. -/
def pVal : Nat → List Char → Option (JsonValue × List Char)
  | 0, _ => none
  | _ + 1, [] => none
  | fuel + 1, c :: rest =>
    if c = 'n' then
      match rest with
      | 'u' :: 'l' :: 'l' :: r => some (.jnull, r)
      | _ => none
    else if c = 't' then
      match rest with
      | 'r' :: 'u' :: 'e' :: r => some (.jbool true, r)
      | _ => none
    else if c = 'f' then
      match rest with
      | 'a' :: 'l' :: 's' :: 'e' :: r => some (.jbool false, r)
      | _ => none
    else if c = '"' then
      (pStrBody rest).map (fun p => (.jstr ⟨p.1⟩, p.2))
    else if c = '[' then
      match rest with
      | ']' :: r => some (.jarr .nil, r)
      | _ => (pElems fuel rest).map (fun p => (.jarr p.1, p.2))
    else if c = '{' then
      match rest with
      | '}' :: r => some (.jobj .nil, r)
      | _ => (pFields fuel rest).map (fun p => (.jobj p.1, p.2))
    else
      (pInt (c :: rest)).map (fun p => (.jint p.1, p.2))

/-- Fueled reader for a non-empty comma-separated element list followed by `]`. -/
def pElems : Nat → List Char → Option (JsonArr × List Char)
  | 0, _ => none
  | fuel + 1, cs =>
    match pVal fuel cs with
    | none => none
    | some (v, r) =>
      match r with
      | ',' :: r' => (pElems fuel r').map (fun p => (.cons v p.1, p.2))
      | ']' :: r' => some (.cons v .nil, r')
      | _ => none

/-- Fueled reader for a non-empty comma-separated member list followed by `}`. -/
def pFields : Nat → List Char → Option (JsonObj × List Char)
  | 0, _ => none
  | fuel + 1, cs =>
    match cs with
    | '"' :: cs' =>
      match pStrBody cs' with
      | none => none
      | some (k, r) =>
        match r with
        | ':' :: r' =>
          match pVal fuel r' with
          | none => none
          | some (v, r'') =>
            match r'' with
            | ',' :: r3 => (pFields fuel r3).map (fun p => (.cons ⟨k⟩ v p.1, p.2))
            | '}' :: r3 => some (.cons ⟨k⟩ v .nil, r3)
            | _ => none
        | _ => none
    | _ => none

end

/-- `JSON.parse` model: parse a complete document (no trailing input). -/
def parseStr (s : String) : Option JsonValue :=
  match pVal (s.data.length + 1) s.data with
  | some (v, []) => some v
  | _ => none

/-! ## Round-trip facts for the codec -/

theorem charToNat_inj {a b : Char} (h : a.toNat = b.toNat) : a = b := by
  apply Char.ext
  apply UInt32.ext
  simpa [Char.toNat, UInt32.toNat] using h

theorem toNat_charOfNat (n : Nat) (h : n < 0xd800) : (Char.ofNat n).toNat = n := by
  have hv : n.isValidChar := Or.inl h
  simp only [Char.ofNat, dif_pos hv, Char.ofNatAux, Char.toNat]
  simp [UInt32.toNat, BitVec.toNat_ofNatLt]

theorem charOfNat_toNat (c : Char) (h : c.toNat < 0xd800) : Char.ofNat c.toNat = c :=
  charToNat_inj (toNat_charOfNat c.toNat h)

theorem toNat_digitChar (n : Nat) (h : n < 10) : (digitChar n).toNat = 48 + n :=
  toNat_charOfNat _ (by omega)

theorem isDigitCh_digitChar (n : Nat) (h : n < 10) : isDigitCh (digitChar n) = true := by
  simp [isDigitCh, toNat_digitChar n h]
  omega

theorem digitVal_digitChar (n : Nat) (h : n < 10) : digitVal (digitChar n) = n := by
  simp [digitVal, toNat_digitChar n h]

/-- `true` when the input does not begin with a decimal digit (so a maximal
digit run that ends right before it is not extended). -/
def noDigitHead : List Char → Bool
  | [] => true
  | c :: _ => !isDigitCh c

/-- `10 ^ (number of decimal digits of n)`. -/
def tenPow (n : Nat) : Nat :=
  if n < 10 then 10 else 10 * tenPow (n / 10)
  decreasing_by exact Nat.div_lt_self (by omega) (by omega)

theorem pDigits_natChars (n : Nat) : ∀ (rest : List Char) (acc : Nat),
    pDigits (natChars n ++ rest) acc = pDigits rest (acc * tenPow n + n) := by
  induction n using Nat.strong_induction_on with
  | _ n ih =>
    intro rest acc
    by_cases h : n < 10
    · rw [natChars_eqn, if_pos h, tenPow, if_pos h]
      simp [pDigits, isDigitCh_digitChar n h, digitVal_digitChar n h]
    · rw [natChars_eqn, if_neg h, tenPow, if_neg h, List.append_assoc]
      rw [ih (n / 10) (Nat.div_lt_self (by omega) (by omega))]
      have h10 : n % 10 < 10 := Nat.mod_lt _ (by omega)
      simp only [List.singleton_append, pDigits, isDigitCh_digitChar _ h10,
        digitVal_digitChar _ h10, if_pos]
      congr 1
      have := Nat.div_add_mod n 10
      ring_nf
      omega

theorem pDigits_stop (rest : List Char) (acc : Nat) (h : noDigitHead rest = true) :
    pDigits rest acc = (acc, rest) := by
  cases rest with
  | nil => rfl
  | cons c t =>
    simp only [noDigitHead, Bool.not_eq_true'] at h
    simp [pDigits, h]

theorem natChars_head (n : Nat) : ∃ c t, natChars n = c :: t ∧ isDigitCh c = true := by
  induction n using Nat.strong_induction_on with
  | _ n ih =>
    by_cases h : n < 10
    · exact ⟨digitChar n, [], by rw [natChars_eqn, if_pos h], isDigitCh_digitChar n h⟩
    · obtain ⟨c, t, heq, hd⟩ := ih (n / 10) (Nat.div_lt_self (by omega) (by omega))
      exact ⟨c, t ++ [digitChar (n % 10)], by rw [natChars_eqn, if_neg h, heq]; rfl, hd⟩

theorem pNat_natChars (n : Nat) (rest : List Char) (h : noDigitHead rest = true) :
    pNat (natChars n ++ rest) = some (n, rest) := by
  obtain ⟨c, t, heq, hd⟩ := natChars_head n
  rw [heq, List.cons_append, pNat]
  simp only [hd, if_pos]
  rw [← List.cons_append, ← heq, pDigits_natChars, pDigits_stop _ _ h]
  simp

theorem isDigitCh_ne_minus {c : Char} (h : isDigitCh c = true) : c ≠ '-' := by
  intro hc
  subst hc
  simp [isDigitCh] at h

theorem pInt_of_ne_minus (c : Char) (l : List Char) (h : c ≠ '-') :
    pInt (c :: l) = (pNat (c :: l)).map (fun p => ((p.1 : Int), p.2)) := by
  rw [pInt.eq_def]
  split
  · rename_i heq
    injection heq with h1 h2
    exact absurd h1 h
  · rfl

theorem pInt_intChars (n : Int) (rest : List Char) (h : noDigitHead rest = true) :
    pInt (intChars n ++ rest) = some (n, rest) := by
  by_cases hn : n < 0
  · rw [intChars, if_pos hn, List.cons_append, pInt, pNat_natChars _ _ h]
    simp only [Option.map_some']
    have hab : (-(n.natAbs : Int)) = n := by omega
    rw [hab]
  · rw [intChars, if_neg hn]
    obtain ⟨c, t, heq, hd⟩ := natChars_head n.toNat
    rw [heq, List.cons_append, pInt_of_ne_minus c _ (isDigitCh_ne_minus hd),
      ← List.cons_append, ← heq, pNat_natChars _ _ h]
    simp only [Option.map_some']
    have hto : ((n.toNat : Int)) = n := by omega
    rw [hto]

theorem hexVal_hexDigitChar (m : Nat) (h : m < 16) : hexVal (hexDigitChar m) = some m := by
  by_cases h10 : m < 10
  · have ht : (hexDigitChar m).toNat = 48 + m := by
      rw [hexDigitChar, if_pos h10]
      exact toNat_charOfNat _ (by omega)
    have hd : isDigitCh (hexDigitChar m) = true := by
      simp [isDigitCh, ht]; omega
    simp [hexVal, hd, digitVal, ht]
  · have ht : (hexDigitChar m).toNat = 87 + m := by
      rw [hexDigitChar, if_neg h10]
      exact toNat_charOfNat _ (by omega)
    have hd : isDigitCh (hexDigitChar m) = false := by
      simp [isDigitCh, ht]; omega
    simp [hexVal, hd, ht]
    omega

theorem pStrBody_escStr (cs : List Char) (rest : List Char) :
    pStrBody (escStr cs ++ '"' :: rest) = some (cs, rest) := by
  induction cs with
  | nil =>
    rw [escStr, List.nil_append, pStrBody.eq_def]
    simp
  | cons c t ih =>
    by_cases h1 : c = '"'
    · subst h1
      simp +decide only [escStr, escChar, List.cons_append, List.nil_append, if_pos, if_neg]
      rw [pStrBody.eq_def]
      simp +decide [ih]
    · by_cases h2 : c = '\\'
      · subst h2
        simp +decide only [escStr, escChar, List.cons_append, List.nil_append, if_pos, if_neg]
        rw [pStrBody.eq_def]
        simp +decide [ih]
      · by_cases h3 : c = '\n'
        · subst h3
          simp +decide only [escStr, escChar, List.cons_append, List.nil_append, if_pos, if_neg]
          rw [pStrBody.eq_def]
          simp +decide [ih]
        · by_cases h4 : c = '\r'
          · subst h4
            simp +decide only [escStr, escChar, List.cons_append, List.nil_append,
              if_pos, if_neg]
            rw [pStrBody.eq_def]
            simp +decide [ih]
          · by_cases h5 : c = '\t'
            · subst h5
              simp +decide only [escStr, escChar, List.cons_append, List.nil_append,
                if_pos, if_neg]
              rw [pStrBody.eq_def]
              simp +decide [ih]
            · by_cases h6 : c = '\x08'
              · subst h6
                simp +decide only [escStr, escChar, List.cons_append, List.nil_append,
                  if_pos, if_neg]
                rw [pStrBody.eq_def]
                simp +decide [ih]
              · by_cases h7 : c = '\x0c'
                · subst h7
                  simp +decide only [escStr, escChar, List.cons_append, List.nil_append,
                    if_pos, if_neg]
                  rw [pStrBody.eq_def]
                  simp +decide [ih]
                · by_cases h8 : c.toNat < 32
                  · have e1 : escChar c = ['\\', 'u', '0', '0',
                        hexDigitChar (c.toNat / 16), hexDigitChar (c.toNat % 16)] := by
                      rw [escChar, if_neg h1, if_neg h2, if_neg h3, if_neg h4, if_neg h5,
                        if_neg h6, if_neg h7, if_pos h8]
                    have hhi : hexVal (hexDigitChar (c.toNat / 16)) = some (c.toNat / 16) :=
                      hexVal_hexDigitChar _ (by omega)
                    have hlo : hexVal (hexDigitChar (c.toNat % 16)) = some (c.toNat % 16) :=
                      hexVal_hexDigitChar _ (by omega)
                    have h0 : hexVal '0' = some 0 := by decide
                    have hof : Char.ofNat (c.toNat / 16 * 16 + c.toNat % 16) = c := by
                      have heq : c.toNat / 16 * 16 + c.toNat % 16 = c.toNat := by omega
                      rw [heq]
                      exact charOfNat_toNat c (by omega)
                    rw [escStr, e1]
                    simp only [List.cons_append, List.nil_append]
                    rw [pStrBody.eq_def]
                    simp +decide [hhi, hlo, h0, hof, ih]
                  · have e1 : escChar c = [c] := by
                      rw [escChar, if_neg h1, if_neg h2, if_neg h3, if_neg h4, if_neg h5,
                        if_neg h6, if_neg h7, if_neg h8]
                    rw [escStr, e1]
                    simp only [List.singleton_append, List.cons_append, List.nil_append]
                    rw [pStrBody.eq_def]
                    simp [if_neg h1, if_neg h2, ih]

mutual

/-- Fuel sufficient to read back a serialized value. -/
def fneedV : JsonValue → Nat
  | .jnull => 1
  | .jbool _ => 1
  | .jint _ => 1
  | .jstr _ => 1
  | .jarr a => 1 + fneedA a
  | .jobj o => 1 + fneedO o

/-- Fuel sufficient to read back a serialized element list. -/
def fneedA : JsonArr → Nat
  | .nil => 0
  | .cons v rest => 1 + fneedV v + fneedA rest

/-- Fuel sufficient to read back a serialized member list. -/
def fneedO : JsonObj → Nat
  | .nil => 0
  | .cons _ v rest => 1 + fneedV v + fneedO rest

end

theorem isDigitCh_bounds {c : Char} (h : isDigitCh c = true) :
    48 ≤ c.toNat ∧ c.toNat ≤ 57 := by
  simpa [isDigitCh] using h

/-- The first character of a serialized value, with the dispatch information
the reader needs. -/
theorem strV_head (v : JsonValue) : ∃ c t, strV v = c :: t ∧
    (c = 'n' ∨ c = 't' ∨ c = 'f' ∨ c = '"' ∨ c = '[' ∨ c = '{' ∨ c = '-' ∨
      isDigitCh c = true) := by
  cases v with
  | jnull => exact ⟨'n', _, rfl, by tauto⟩
  | jbool b =>
    cases b with
    | true => exact ⟨'t', _, rfl, by tauto⟩
    | false => exact ⟨'f', _, rfl, by tauto⟩
  | jint n =>
    by_cases hn : n < 0
    · exact ⟨'-', _, by rw [strV, intChars, if_pos hn], by tauto⟩
    · obtain ⟨c, t, heq, hd⟩ := natChars_head n.toNat
      exact ⟨c, t, by rw [strV, intChars, if_neg hn, heq], by tauto⟩
  | jstr s => exact ⟨'"', _, rfl, by tauto⟩
  | jarr a => exact ⟨'[', _, rfl, by tauto⟩
  | jobj o => exact ⟨'{', _, rfl, by tauto⟩

theorem strV_head_ne {v : JsonValue} {d : Char}
    (hd : d = ']' ∨ d = '}' ∨ d = ',') :
    ∀ l rest, strV v ++ rest ≠ d :: l := by
  intro l rest hcontra
  obtain ⟨c, t, heq, hc⟩ := strV_head v
  rw [heq, List.cons_append] at hcontra
  injection hcontra with hhd _
  subst hhd
  rcases hc with h | h | h | h | h | h | h | h <;> rcases hd with h' | h' | h' <;>
    first
      | (subst h'; simp_all)
      | (subst h'; exact absurd (isDigitCh_bounds h).1 (by simp_all +decide))

theorem string_eta (s : String) : String.mk s.data = s := rfl

theorem noDigitHead_cons (c : Char) (l : List Char) (h : isDigitCh c = false) :
    noDigitHead (c :: l) = true := by
  simp [noDigitHead, h]

theorem strA_cons_split (v : JsonValue) (a' : JsonArr) (tail : List Char) :
    ∃ X, strA (.cons v a') ++ tail = strV v ++ X := by
  cases a' with
  | nil => exact ⟨tail, by rw [strA]⟩
  | cons w a'' => exact ⟨',' :: (strA (.cons w a'') ++ tail), by rw [strA]; simp⟩

mutual

/-- Reading back a serialized value consumes exactly the serialization
(provided the remainder does not begin with a digit, which would extend a
numeric literal). -/
theorem rtV (v : JsonValue) (rest : List Char) (fuel : Nat) (hf : fneedV v ≤ fuel)
    (hrest : noDigitHead rest = true) : pVal fuel (strV v ++ rest) = some (v, rest) := by
  obtain ⟨f, rfl⟩ : ∃ f, fuel = f + 1 :=
    ⟨fuel - 1, by cases v <;> simp [fneedV] at hf <;> omega⟩
  cases v with
  | jnull =>
    rw [strV, List.cons_append, List.cons_append, List.cons_append, List.cons_append,
      List.nil_append, pVal.eq_def]
    simp +decide
  | jbool b =>
    cases b <;>
      rw [strV, List.cons_append, List.cons_append, List.cons_append, List.cons_append,
        pVal.eq_def] <;>
      simp +decide
  | jint n =>
    have hint := pInt_intChars n rest hrest
    by_cases hn : n < 0
    · rw [intChars, if_pos hn] at hint
      rw [strV, intChars, if_pos hn, List.cons_append, pVal.eq_def]
      simp +decide only [if_neg, if_pos]
      rw [← List.cons_append, hint]
      rfl
    · obtain ⟨c, t, heq, hc⟩ := natChars_head n.toNat
      have hb := isDigitCh_bounds hc
      rw [intChars, if_neg hn, heq] at hint
      rw [strV, intChars, if_neg hn, heq]
      have c1 : ¬c = 'n' := fun h => by subst h; simp +decide at hb
      have c2 : ¬c = 't' := fun h => by subst h; simp +decide at hb
      have c3 : ¬c = 'f' := fun h => by subst h; simp +decide at hb
      have c4 : ¬c = '"' := fun h => by subst h; simp +decide at hb
      have c5 : ¬c = '[' := fun h => by subst h; simp +decide at hb
      have c6 : ¬c = '{' := fun h => by subst h; simp +decide at hb
      rw [List.cons_append, pVal.eq_def]
      simp only [if_neg c1, if_neg c2, if_neg c3, if_neg c4, if_neg c5, if_neg c6]
      rw [← List.cons_append, hint]
      rfl
  | jstr s =>
    rw [strV, strLit, List.cons_append, pVal.eq_def]
    simp +decide only [if_neg, if_pos]
    rw [List.append_assoc, List.singleton_append, pStrBody_escStr]
    rfl
  | jarr a =>
    cases a with
    | nil =>
      rw [strV, strA, List.nil_append, List.cons_append, List.cons_append, pVal.eq_def]
      simp +decide
    | cons v a' =>
      rw [strV, List.cons_append, List.append_assoc, List.singleton_append, pVal.eq_def]
      simp +decide only [if_neg, if_pos]
      have hne : fneedA (JsonArr.cons v a') ≤ f := by
        simp [fneedV, fneedA] at hf; simp [fneedA]; omega
      have hrec := rtA (JsonArr.cons v a') rest f (by simp) hne
      split
      · rename_i r heq2
        obtain ⟨X, hX⟩ := strA_cons_split v a' (']' :: rest)
        rw [hX] at heq2
        exact absurd heq2 (strV_head_ne (Or.inl rfl) _ _)
      · rw [hrec]
        rfl
  | jobj o =>
    cases o with
    | nil =>
      rw [strV, strO, List.nil_append, List.cons_append, List.cons_append, pVal.eq_def]
      simp +decide
    | cons k v o' =>
      rw [strV, List.cons_append, List.append_assoc, List.singleton_append, pVal.eq_def]
      simp +decide only [if_neg, if_pos]
      have hne : fneedO (JsonObj.cons k v o') ≤ f := by
        simp [fneedV, fneedO] at hf; simp [fneedO]; omega
      have hrec := rtO (JsonObj.cons k v o') rest f (by simp) hne
      split
      · rename_i r heq2
        have hhd : ∃ X, strO (.cons k v o') ++ '}' :: rest = '"' :: X := by
          cases o' with
          | nil =>
            exact ⟨escStr k.data ++ '"' :: ':' :: (strV v ++ '}' :: rest),
              by rw [strO, strLit]; simp⟩
          | cons k' w o'' =>
            exact ⟨escStr k.data ++ '"' :: ':' ::
                (strV v ++ ',' :: (strO (.cons k' w o'') ++ '}' :: rest)),
              by rw [strO, strLit]; simp⟩
        obtain ⟨X, hX⟩ := hhd
        rw [hX] at heq2
        injection heq2 with hbad _
        exact absurd hbad.symm (by decide)
      · rw [hrec]
        rfl

/-- Reading back a serialized non-empty element list followed by `]`. -/
theorem rtA (a : JsonArr) (rest : List Char) (fuel : Nat) (ha : a ≠ .nil)
    (hf : fneedA a ≤ fuel) :
    pElems fuel (strA a ++ ']' :: rest) = some (a, rest) := by
  cases a with
  | nil => exact absurd rfl ha
  | cons v a' =>
    obtain ⟨f, rfl⟩ : ∃ f, fuel = f + 1 := ⟨fuel - 1, by simp [fneedA] at hf; omega⟩
    rw [pElems]
    cases a' with
    | nil =>
      rw [strA]
      rw [rtV v (']' :: rest) f (by simp [fneedA] at hf; omega)
        (noDigitHead_cons _ _ (by decide))]
      simp
    | cons w a'' =>
      rw [strA, List.append_assoc, List.cons_append]
      rw [rtV v (',' :: (strA (.cons w a'') ++ ']' :: rest)) f
        (by simp [fneedA] at hf; omega) (noDigitHead_cons _ _ (by decide))]
      have hrec := rtA (JsonArr.cons w a'') rest f (by simp)
        (by simp [fneedA] at hf; simp [fneedA]; omega)
      simp only [hrec]
      rfl

/-- Reading back a serialized non-empty member list followed by `}`. -/
theorem rtO (o : JsonObj) (rest : List Char) (fuel : Nat) (ho : o ≠ .nil)
    (hf : fneedO o ≤ fuel) :
    pFields fuel (strO o ++ '}' :: rest) = some (o, rest) := by
  cases o with
  | nil => exact absurd rfl ho
  | cons k v o' =>
    obtain ⟨f, rfl⟩ : ∃ f, fuel = f + 1 := ⟨fuel - 1, by simp [fneedO] at hf; omega⟩
    cases o' with
    | nil =>
      rw [strO, strLit]
      simp only [List.cons_append, List.append_assoc, List.singleton_append]
      rw [pFields]
      have hv := rtV v ('}' :: rest) f (by simp [fneedO, fneedV] at hf ⊢; omega)
        (noDigitHead_cons _ _ (by decide))
      simp only [List.nil_append, pStrBody_escStr, hv, string_eta]
    | cons k' w o'' =>
      rw [strO, strLit]
      simp only [List.cons_append, List.append_assoc, List.singleton_append]
      rw [pFields]
      have hv := rtV v (',' :: (strO (.cons k' w o'') ++ '}' :: rest)) f
        (by simp [fneedO, fneedV] at hf ⊢; omega) (noDigitHead_cons _ _ (by decide))
      have hrec := rtO (JsonObj.cons k' w o'') rest f (by simp)
        (by simp [fneedO] at hf ⊢; omega)
      simp only [List.nil_append, pStrBody_escStr, hv, hrec, string_eta]
      rfl

end

mutual

/-- The serialization is at least as long as the fuel the reader needs. -/
theorem lenV (v : JsonValue) : fneedV v ≤ (strV v).length := by
  cases v with
  | jnull => simp [strV, fneedV]
  | jbool b => cases b <;> simp [strV, fneedV]
  | jint n =>
    rw [fneedV]
    by_cases hn : n < 0
    · rw [strV, intChars, if_pos hn]; simp
    · rw [strV, intChars, if_neg hn]
      obtain ⟨c, t, heq, _⟩ := natChars_head n.toNat
      rw [heq]; simp
  | jstr s => simp [strV, strLit, fneedV]
  | jarr a =>
    have := lenA a
    rw [strV, fneedV]
    simp only [List.length_cons, List.length_append, List.length_singleton]
    omega
  | jobj o =>
    have := lenO o
    rw [strV, fneedV]
    simp only [List.length_cons, List.length_append, List.length_singleton]
    omega

theorem lenA (a : JsonArr) : fneedA a ≤ (strA a).length + 1 := by
  cases a with
  | nil => simp [strA, fneedA]
  | cons v a' =>
    have hv := lenV v
    cases a' with
    | nil => rw [strA, fneedA, fneedA]; omega
    | cons w a'' =>
      have ha := lenA (JsonArr.cons w a'')
      rw [strA, fneedA]
      simp only [List.length_append, List.length_cons]
      omega

theorem lenO (o : JsonObj) : fneedO o ≤ (strO o).length + 1 := by
  cases o with
  | nil => simp [strO, fneedO]
  | cons k v o' =>
    have hv := lenV v
    cases o' with
    | nil =>
      rw [strO, fneedO, fneedO]
      simp only [List.length_append, List.length_cons]
      omega
    | cons k' w o'' =>
      have ho := lenO (JsonObj.cons k' w o'')
      rw [strO, fneedO]
      simp only [List.length_append, List.length_cons]
      omega

end

/-- The serializer/reader inversion: the model of `JSON.parse` recovers any
value from the model of `JSON.stringify`. -/
theorem parseStr_stringify (v : JsonValue) : parseStr (stringify v) = some v := by
  have hlen := lenV v
  have h := rtV v [] ((strV v).length + 1) (by omega) rfl
  rw [List.append_nil] at h
  rw [parseStr]
  show (match pVal ((strV v).length + 1) (strV v) with
    | some (v, []) => some v
    | _ => none) = some v
  rw [h]

/-! ## Data model (§3): columns, dataset metadata

The TypeScript interface file (`interfaces/datasetJson.ts`) is not under
`src/`; the `Column` field set below follows the spec (§3: name, label,
declared data type, optional source identifier) and the column objects used in
the repository's own tests (`itemOID`, `name`, `label`, `dataType`). -/

structure Column where
  itemOID : String
  name : String
  label : String
  dataType : String
deriving DecidableEq

/-- Dataset metadata.  The six required attributes of the source's
`requiredAttributes` list, plus the two optional OID attributes the reader
initializes (source lines 209-210). -/
structure DatasetMetadata where
  datasetJSONCreationDateTime : String
  datasetJSONVersion : String
  records : Int
  name : String
  label : String
  columns : List Column
  studyOID : String := ""
  metaDataVersionOID : String := ""
deriving DecidableEq

/-- The reader's initial metadata object (source lines 202-211 / 327-336). -/
def emptyMetadata : DatasetMetadata :=
  { datasetJSONCreationDateTime := "", datasetJSONVersion := "", records := -1,
    name := "", label := "", columns := [] }

/-- The 14 keys of the source's `parsedMetadata` object, in declaration order
(source lines 212-227). -/
def knownKeys : List String :=
  ["datasetJSONCreationDateTime", "datasetJSONVersion", "dbLastModifiedDateTime",
   "fileOID", "originator", "sourceSystem", "itemGroupOID", "columns", "records",
   "name", "label", "studyOID", "metaDataVersionOID", "metaDataRef"]

/-- The source's `requiredAttributes` list (lines 45-52). -/
def requiredAttributes : List String :=
  ["datasetJSONCreationDateTime", "datasetJSONVersion", "records", "name",
   "label", "columns"]

/-- JSON object for one column, fields in declaration order of the test data. -/
def columnToJson (c : Column) : JsonValue :=
  .jobj (objOfList
    [("itemOID", .jstr c.itemOID), ("name", .jstr c.name),
     ("label", .jstr c.label), ("dataType", .jstr c.dataType)])

def colsToJson (cols : List Column) : JsonValue :=
  .jarr (arrOfList (cols.map columnToJson))

/-- The member list of `JSON.stringify(metadata)`: the caller's metadata object
with its fields in declaration order. -/
def metaFields (m : DatasetMetadata) : List (String × JsonValue) :=
  [("datasetJSONCreationDateTime", .jstr m.datasetJSONCreationDateTime),
   ("datasetJSONVersion", .jstr m.datasetJSONVersion),
   ("records", .jint m.records),
   ("name", .jstr m.name),
   ("label", .jstr m.label),
   ("columns", colsToJson m.columns),
   ("studyOID", .jstr m.studyOID),
   ("metaDataVersionOID", .jstr m.metaDataVersionOID)]

def metaToJson (m : DatasetMetadata) : JsonValue := .jobj (objOfList (metaFields m))

/-- Reading a JS value back as a string; non-strings are collapsed to `""`
(the dynamic assignment in the source performs no conversion — this collapse
is only exercised by malformed documents). -/
def asString : JsonValue → String
  | .jstr s => s
  | _ => ""

/-- Reading a JS value back as the record count; non-integers collapse to the
unset marker `-1` (only exercised by malformed documents). -/
def asInt : JsonValue → Int
  | .jint n => n
  | _ => -1

def objLookup (l : List (String × JsonValue)) (k : String) : Option JsonValue :=
  (l.find? (fun kv => kv.1 = k)).map (fun kv => kv.2)

/-- Reading a parsed column object back into the model `Column`. -/
def jsonToColumn (v : JsonValue) : Column :=
  match v with
  | .jobj o =>
    let l := listOfObj o
    { itemOID := asString ((objLookup l "itemOID").getD .jnull),
      name := asString ((objLookup l "name").getD .jnull),
      label := asString ((objLookup l "label").getD .jnull),
      dataType := asString ((objLookup l "dataType").getD .jnull) }
  | _ => { itemOID := "", name := "", label := "", dataType := "" }

def jsonToColumns (v : JsonValue) : List Column :=
  match v with
  | .jarr a => (listOfArr a).map jsonToColumn
  | _ => []

/-- The dynamic `(metadata as any)[key] = data[key]` assignment for the keys
that exist on the model record; the remaining known keys are tracked in the
presence set but have no record field. -/
def applyField (m : DatasetMetadata) (k : String) (v : JsonValue) : DatasetMetadata :=
  if k = "datasetJSONCreationDateTime" then { m with datasetJSONCreationDateTime := asString v }
  else if k = "datasetJSONVersion" then { m with datasetJSONVersion := asString v }
  else if k = "records" then { m with records := asInt v }
  else if k = "name" then { m with name := asString v }
  else if k = "label" then { m with label := asString v }
  else if k = "columns" then { m with columns := jsonToColumns v }
  else if k = "studyOID" then { m with studyOID := asString v }
  else if k = "metaDataVersionOID" then { m with metaDataVersionOID := asString v }
  else m

/-- Fold the key/value pairs of one parser event into the metadata under
construction, recording which known keys have been seen. -/
def applyFields (st : DatasetMetadata × List String) (fields : List (String × JsonValue)) :
    DatasetMetadata × List String :=
  fields.foldl
    (fun st kv =>
      if knownKeys.contains kv.1 then (applyField st.1 kv.1 kv.2, st.2 ++ [kv.1])
      else st)
    st

/-- `checkAttributesParsed` (source lines 171-175). -/
def checkAttributesParsed (seen : List String) : Bool :=
  requiredAttributes.all (fun k => seen.contains k)

/-- The unresolved required keys, in `parsedMetadata` declaration order
(the order `Object.keys` yields in the source's error path). -/
def notParsedKeys (seen : List String) : List String :=
  knownKeys.filter (fun k => !seen.contains k && requiredAttributes.contains k)

/-! ## Session state and external stream models -/

/-- The read-side stream state of a `DatasetJson` instance.
`noStream` models `this.stream === null` or a destroyed stream; `rawOpen`
models the stream the constructor opened before any parser was attached;
`jsonRows p` models an open stream piped into a (paused) `JSONStream` parser
that has emitted `p` row events so far; `ndOpen p` models an open stream with
a `readline` interface that has emitted `p` line events so far. -/
inductive StreamState where
  | noStream : StreamState
  | rawOpen : StreamState
  | jsonRows (pos : Nat) : StreamState
  | ndOpen (pos : Nat) : StreamState
deriving DecidableEq

/-- The mutable state of one `DatasetJson` read session. -/
structure Session where
  isNdJson : Bool
  isCompressed : Bool
  metadata : DatasetMetadata
  metadataLoaded : Bool
  currentPosition : Nat
  allRowsRead : Bool
  stream : StreamState
deriving DecidableEq

/-- A session as the constructor leaves it for an existing file. -/
def freshSession (isNdJson : Bool) (isCompressed : Bool) : Session :=
  { isNdJson, isCompressed, metadata := emptyMetadata, metadataLoaded := false,
    currentPosition := 0, allRowsRead := false, stream := .rawOpen }

/-- ASCII lower-casing, the behavior of `toLowerCase`/`toLowerCase` on the
ASCII identifiers this library compares (executable model). -/
def lowerChar (c : Char) : Char :=
  if 'A' ≤ c ∧ c ≤ 'Z' then Char.ofNat (c.toNat + 32) else c

def lowerStr (s : String) : String :=
  ⟨s.data.map lowerChar⟩

/-- `endsWith` as a suffix test on the character content. -/
def endsWithStr (s suffix : String) : Bool :=
  suffix.data.isSuffixOf s.data

/-- Constructor flag computation (source lines 88-103): explicit options win,
otherwise the extension decides; a compressed dataset forces NDJSON. -/
def ctorIsCompressed (filePath : String) (isCompressed : Option Bool) : Bool :=
  match isCompressed with
  | some b => b
  | none => endsWithStr (lowerStr filePath) ".dsjc"

def ctorIsNdJson (filePath : String) (isNdJson : Option Bool) (isCompressed : Option Bool) :
    Bool :=
  let nd := match isNdJson with
    | some b => b
    | none => endsWithStr (lowerStr filePath) ".ndjson"
  if ctorIsCompressed filePath isCompressed then true else nd

/-- Split a character sequence at every newline. -/
def splitNl : List Char → List (List Char)
  | [] => [[]]
  | c :: rest =>
    if c = '\n' then [] :: splitNl rest
    else
      match splitNl rest with
      | [] => [[c]]
      | l :: ls => (c :: l) :: ls

/-- The lines `readline` emits for a text: split on newlines, with no final
empty line when the text ends in a line break (or is empty). -/
def rlLines (s : String) : List String :=
  let ps := (splitNl s.data).map (fun l => (⟨l⟩ : String))
  if ps.getLast? = some "" then ps.dropLast else ps

/-- The view of an array-shape document that the `JSONStream` selector
`rows..*` / `['rows', true]` induces: the object members before the `rows`
member (emitted as the `header` event once the first row matches), the row
array elements (emitted as `data` events), and the members after `rows`
(emitted as the `footer` event).  When no match ever occurs (no `rows`
member, or an empty/non-array value), everything is collected into the
header object, which `JSONStream` flushes at end of stream. -/
structure JsonDocView where
  headerFields : List (String × JsonValue)
  rows : List JsonValue
  footerFields : List (String × JsonValue)
  allFields : List (String × JsonValue)
deriving DecidableEq

def docViewOf (text : String) : Option JsonDocView :=
  match parseStr text with
  | some (.jobj o) =>
    let fields := listOfObj o
    let hd := fields.takeWhile (fun kv => kv.1 ≠ "rows")
    match fields.dropWhile (fun kv => kv.1 ≠ "rows") with
    | [] =>
      some { headerFields := fields, rows := [], footerFields := [], allFields := fields }
    | (_, v) :: tl =>
      let rows := match v with
        | .jarr a => listOfArr a
        | _ => []
      some { headerFields := hd, rows := rows, footerFields := tl, allFields := fields }
  | _ => none

/-! ## Metadata readers (§4.1) -/

/-- `getJsonMetadata` (source lines 198-317): stream the document; record
every known key seen in the `header` event, short-circuiting (resolving and
destroying the stream) as soon as all required attributes are present;
otherwise fall back to the `footer` event; at end of stream, fail naming the
attributes still missing.  When no row ever matches, `JSONStream` flushes the
whole object as the header at end of stream. -/
def getJsonMetadata (text : String) (s : Session) :
    Except String (DatasetMetadata × Session) :=
  match docViewOf text with
  | none => .error "Invalid JSON"
  | some doc =>
    let done := fun (m : DatasetMetadata) =>
      Except.ok (m, { s with metadata := m, metadataLoaded := true, stream := .noStream })
    if doc.rows ≠ [] then
      let st1 := applyFields (emptyMetadata, []) doc.headerFields
      if checkAttributesParsed st1.2 then done st1.1
      else if doc.footerFields ≠ [] then
        let st2 := applyFields st1 doc.footerFields
        if checkAttributesParsed st2.2 then done st2.1
        else .error ("Could not find required metadata elements " ++
          String.intercalate ", " (notParsedKeys st2.2))
      else .error ("Could not find required metadata elements " ++
        String.intercalate ", " (notParsedKeys st1.2))
    else
      let st1 := applyFields (emptyMetadata, []) doc.allFields
      if checkAttributesParsed st1.2 then done st1.1
      else .error ("Could not find required metadata elements " ++
        String.intercalate ", " (notParsedKeys st1.2))

/-- `getNdjsonMetadata` (source lines 323-423): all metadata is in the first
line; parse it, record the known keys, succeed iff all required attributes
are present (error message with the `: ` variant of source line 412). -/
def getNdjsonMetadata (text : String) (s : Session) :
    Except String (DatasetMetadata × Session) :=
  match rlLines text with
  | [] => .error "Stream ended before a line was read"
  | line :: _ =>
    match parseStr line with
    | none => .error "Unexpected token in JSON"
    | some v =>
      let fields := match v with
        | .jobj o => listOfObj o
        | _ => []
      let st1 := applyFields (emptyMetadata, []) fields
      if checkAttributesParsed st1.2 then
        .ok (st1.1, { s with metadata := st1.1, metadataLoaded := true, stream := .noStream })
      else .error ("Could not find required metadata elements: " ++
        String.intercalate ", " (notParsedKeys st1.2))

/-- `getMetadata` (source lines 181-192): the cached metadata is returned when
already loaded (the file is modelled as unchanged for the session's lifetime),
otherwise the shape-specific reader runs. -/
def getMetadata (text : String) (s : Session) :
    Except String (DatasetMetadata × Session) :=
  if s.metadataLoaded then .ok (s.metadata, s)
  else if s.isNdJson then getNdjsonMetadata text s
  else getJsonMetadata text s

/-! ## Cursor-based row reader (§4.2) -/

/-- The shape of a returned row (`ItemDataArray` or `ItemDataObject`). -/
inductive DataType where
  | array : DataType
  | object : DataType
deriving DecidableEq

/-- One returned row: the raw (possibly index-filtered) row value in `array`
shape, or the name→cell mapping in `object` shape.  A `none` cell models the
JavaScript `undefined` produced by indexing past the end of a row. -/
inductive OutRow where
  | arr (v : JsonValue) : OutRow
  | obj (fields : List (String × Option JsonValue)) : OutRow
deriving DecidableEq

/-- The arguments of `getData` (source lines 434-440).  The filter collaborator
(`js-array-filter`) is opaque: a predicate on the raw row value (§6). -/
structure GetDataProps where
  start : Option Int := none
  length : Option Int := none
  type : Option DataType := none
  filterColumns : List String := []
  filter : Option (JsonValue → Bool) := none

/-- The cells of a row value (`data.value` is used as an array by the source;
non-array rows only occur in malformed documents). -/
def cellsOf : JsonValue → List JsonValue
  | .jarr a => listOfArr a
  | _ => []

/-- `findIndex` over the metadata columns, case-insensitive
(source lines 489-493); `-1` when absent. -/
def findColIdx (cols : List Column) (column : String) : Int :=
  match cols.findIdx? (fun item => lowerStr item.name = lowerStr column) with
  | some i => (i : Int)
  | none => -1

/-- Row projection (source lines 550-587 / 694-732): in `array` shape keep the
raw row, or only the positions named by `filterColumnIndeces`; in `object`
shape zip the column names with the cells, keeping only the filtered columns
when a filter is given. -/
def projectRow (type : DataType) (filterColumns : List String) (idxs : List Int)
    (columnNames : List String) (v : JsonValue) : OutRow :=
  match type with
  | .array =>
    if idxs.length = 0 then .arr v
    else .arr (.jarr (arrOfList
      (((cellsOf v).enum.filter (fun p => idxs.contains ((p.1 : Int)))).map (fun p => p.2))))
  | .object =>
    .obj (columnNames.enum.filterMap (fun p =>
      if filterColumns.length = 0 then some (p.2, (cellsOf v).get? p.1)
      else if filterColumns.contains (lowerStr p.2) then some (p.2, (cellsOf v).get? p.1)
      else none))

/-- Outcome of a row scan: the reader either hit its length cap (pausing the
stream at local position `pos`) or consumed the stream to its end. -/
inductive ScanOut where
  | capped (data : List OutRow) (pos : Nat) : ScanOut
  | ended (data : List OutRow) : ScanOut
deriving DecidableEq

/-- The `data`-event handler of `getJsonData` (source lines 540-607), folded
over the row events the parser emits: count every event, include a row when
no `length` was given, or when the local position is past `start` and the cap
(filtered-match count, resp. scanned count) has not been reached; stop as soon
as the cap is hit exactly. -/
def jsonScan (start : Nat) (length : Option Nat) (pred : Option (JsonValue → Bool))
    (proj : JsonValue → OutRow) :
    List JsonValue → Nat → Nat → List OutRow → ScanOut
  | [], _pos, _fr, acc => .ended acc
  | v :: evs, pos, fr, acc =>
    let pos' := pos + 1
    let isFiltered := pred.isSome
    let incl : Bool :=
      match length with
      | none => true
      | some l =>
        decide (pos' > start) &&
          (if isFiltered then decide (fr < l) else decide (pos' ≤ start + l))
    let matched : Bool :=
      match pred with
      | some p => p v
      | none => true
    let push := incl && matched
    let acc' := if push then acc ++ [proj v] else acc
    let fr' := if push && isFiltered then fr + 1 else fr
    let capNow : Bool :=
      match length with
      | none => false
      | some l => if isFiltered then decide (fr' = l) else decide (pos' = start + l)
    if capNow then .capped acc' pos'
    else jsonScan start length pred proj evs pos' fr' acc'

/-- `getJsonData` (source lines 478-614). -/
def getJsonData (text : String) (s : Session) (props : GetDataProps) :
    Except String (List OutRow × Session) :=
  let start := (props.start.getD 0).toNat
  let length := props.length.map Int.toNat
  let type := props.type.getD .array
  let filter := props.filter
  let filterColumns := props.filterColumns
  let idxs := filterColumns.map (findColIdx s.metadata.columns)
  let columnNames := if type = .object then s.metadata.columns.map (fun c => c.name) else []
  let proj := projectRow type filterColumns idxs columnNames
  match docViewOf text with
  | none => .error "Invalid JSON"
  | some doc =>
    let restart := s.stream = .noStream ∨ s.currentPosition > start
    let run := fun (events : List JsonValue) (startIdx localPos : Nat) =>
      match jsonScan start length filter proj events localPos 0 [] with
      | .capped data pos =>
        Except.ok (data,
          { s with currentPosition := pos, stream := .jsonRows (startIdx + (pos - localPos)) })
      | .ended data =>
        Except.ok (data, { s with allRowsRead := true, stream := .noStream })
    if restart then run doc.rows 0 0
    else
      match s.stream with
      | .jsonRows p => run (doc.rows.drop p) p s.currentPosition
      | _ => .error "Could not create JSON parser"

/-- Outcome of an NDJSON line scan: cap hit, end of stream, or a line
`JSON.parse` could not read (which crashes the `line` handler; unreachable
for documents this library writes). -/
inductive NdOut where
  | capped (data : List OutRow) (pos : Nat) : NdOut
  | ended (data : List OutRow) : NdOut
  | badLine : NdOut
deriving DecidableEq

/-- The `line`-event handler of `getNdjsonData` (source lines 677-758): skip
the first line (metadata) when scanning from position 0, then proceed as in
the JSON shape, additionally ignoring empty lines. -/
def ndScan (start : Nat) (length : Option Nat) (pred : Option (JsonValue → Bool))
    (proj : JsonValue → OutRow) :
    List String → Nat → Bool → Nat → List OutRow → NdOut
  | [], _pos, _first, _fr, acc => .ended acc
  | line :: ls, pos, first, fr, acc =>
    if pos = 0 ∧ first then ndScan start length pred proj ls pos false fr acc
    else
      let pos' := pos + 1
      let isFiltered := pred.isSome
      let incl : Bool :=
        (match length with
          | none => true
          | some l =>
            decide (pos' > start) &&
              (if isFiltered then decide (fr < l) else decide (pos' ≤ start + l))) &&
        decide (line.length > 0)
      if incl then
        match parseStr line with
        | none => .badLine
        | some v =>
          let matched : Bool :=
            match pred with
            | some p => p v
            | none => true
          let acc' := if matched then acc ++ [proj v] else acc
          let fr' := if matched && isFiltered then fr + 1 else fr
          let capNow : Bool :=
            match length with
            | none => false
            | some l => if isFiltered then decide (fr' = l) else decide (pos' = start + l)
          if capNow then .capped acc' pos'
          else ndScan start length pred proj ls pos' first fr' acc'
      else
        let capNow : Bool :=
          match length with
          | none => false
          | some l => if isFiltered then decide (fr = l) else decide (pos' = start + l)
        if capNow then .capped acc pos'
        else ndScan start length pred proj ls pos' first fr acc

/-- `getNdjsonData` (source lines 616-760).  A capped read closes the readline
interface — whose synchronously emitted `close` event marks the session
exhausted — destroys the stream and resets the cursor to 0 (source lines
736-750); a read that reaches end of stream marks the session exhausted and
leaves the cursor untouched. -/
def getNdjsonData (text : String) (s : Session) (props : GetDataProps) :
    Except String (List OutRow × Session) :=
  let start := (props.start.getD 0).toNat
  let length := props.length.map Int.toNat
  let type := props.type.getD .array
  let filter := props.filter
  let filterColumns := props.filterColumns
  let idxs := filterColumns.map (findColIdx s.metadata.columns)
  let columnNames := if type = .object then s.metadata.columns.map (fun c => c.name) else []
  let proj := projectRow type filterColumns idxs columnNames
  let restart := s.stream = .noStream ∨ s.currentPosition > start
  let run := fun (lines : List String) (localPos : Nat) =>
    match ndScan start length filter proj lines localPos true 0 [] with
    | .capped data _pos =>
      Except.ok (data,
        { s with currentPosition := 0, stream := .noStream, allRowsRead := true })
    | .ended data =>
      Except.ok (data, { s with allRowsRead := true, stream := .noStream })
    | .badLine => Except.error "Unexpected token in JSON"
  if restart then run (rlLines text) 0
  else
    match s.stream with
    | .ndOpen p => run ((rlLines text).drop p) s.currentPosition
    | _ => .error "Could not create readline stream"

/-- `getData` (source lines 434-476): load metadata if needed, lower-case the
column filter, reject when no columns/records are known or the start/length
window is invalid, then dispatch on the document shape. -/
def getData (text : String) (s : Session) (props : GetDataProps) :
    Except String (List OutRow × Session) := do
  let s1 ←
    if s.metadataLoaded = false then do
      let r ← getMetadata text s
      pure r.2
    else pure s
  let filterColumns := props.filterColumns.map (fun item => lowerStr item)
  if s1.metadata.columns.length = 0 ∨ s1.metadata.records = -1 then
    throw "Metadata is not loaded or there are no columns"
  let start := props.start.getD 0
  let badLength : Bool := match props.length with
    | some l => decide (l ≤ 0)
    | none => false
  if badLength ∨ start < 0 ∨ start > s1.metadata.records then
    throw "Invalid start/length parameter values"
  if s1.isNdJson then getNdjsonData text s1 { props with filterColumns := filterColumns }
  else getJsonData text s1 { props with filterColumns := filterColumns }

/-! ## Lazy row iterator (§4.3) -/

structure ReadRecordsProps where
  start : Option Int := none
  bufferLength : Option Int := none
  type : Option DataType := none
  filterColumns : Option (List String) := none

/-- The `while (true)` loop of `readRecords` (source lines 790-803): read a
chunk at the loop cursor, yield it, stop when the session is exhausted or the
chunk was empty, otherwise continue at the session cursor.  The fuel only
bounds the recursion; it is chosen large enough by `readRecords` below. -/
def readRecordsLoop (text : String) (bufferLength : Int) (type : Option DataType)
    (filterColumns : Option (List String)) :
    Nat → Session → Nat → List OutRow → Except String (List OutRow × Session)
  | 0, s, _pos, acc => .ok (acc, s)
  | fuel + 1, s, pos, acc => do
    let r ← getData text s
      { start := some (pos : Int), length := some bufferLength, type := type,
        filterColumns := filterColumns.getD [], filter := none }
    let acc' := acc ++ r.1
    if r.2.allRowsRead = true ∨ r.1.length = 0 then .ok (acc', r.2)
    else readRecordsLoop text bufferLength type filterColumns fuel r.2 r.2.currentPosition acc'

/-- `readRecords` (source lines 771-804), materialized: the list of all rows
the async generator yields, together with the final session state. -/
def readRecords (text : String) (s : Session) (props : ReadRecordsProps) :
    Except String (List OutRow × Session) := do
  let s1 ←
    if s.metadataLoaded = false then do
      let r ← getMetadata text s
      pure r.2
    else pure s
  let start := (props.start.getD 0).toNat
  let bufferLength := props.bufferLength.getD 1000
  readRecordsLoop text bufferLength props.type props.filterColumns
    (text.length + 2) s1 start []

/-! ## Unique-value aggregator (§4.4) -/

/-- A JavaScript object keyed by column name is modelled as an association
list with unique keys, in insertion order. -/
def lookupA {α : Type} (l : List (String × α)) (k : String) : Option α :=
  (l.find? (fun kv => kv.1 = k)).map (fun kv => kv.2)

/-- Set a key: replace the first occurrence, or append the key. -/
def setA {α : Type} (l : List (String × α)) (k : String) (v : α) : List (String × α) :=
  match l with
  | [] => [(k, v)]
  | kv :: rest => if kv.1 = k then (k, v) :: rest else kv :: setA rest k v

mutual

/-- `String(value)` as used by the default `Array.prototype.sort` comparator:
numbers in decimal, `null` → `"null"`, arrays join their elements with `","`
(`null` elements becoming empty), objects → `"[object Object]"`. -/
def jsStrV : JsonValue → String
  | .jnull => "null"
  | .jbool true => "true"
  | .jbool false => "false"
  | .jint n => ⟨intChars n⟩
  | .jstr s => s
  | .jarr a => jsStrElems a
  | .jobj _ => "[object Object]"

def jsStrElems : JsonArr → String
  | .nil => ""
  | .cons .jnull .nil => ""
  | .cons v .nil => jsStrV v
  | .cons .jnull rest => "," ++ jsStrElems rest
  | .cons v rest => jsStrV v ++ "," ++ jsStrElems rest

end

/-- The UTF-16 code units of a character (JavaScript strings compare by
code unit). -/
def utf16Units (c : Char) : List Nat :=
  if c.toNat < 0x10000 then [c.toNat]
  else [0xd800 + (c.toNat - 0x10000) / 0x400, 0xdc00 + (c.toNat - 0x10000) % 0x400]

def utf16Key (s : String) : List Nat :=
  s.data.foldr (fun c acc => utf16Units c ++ acc) []

/-- Lexicographic comparison of code-unit sequences. -/
def lexLe : List Nat → List Nat → Bool
  | [], _ => true
  | _ :: _, [] => false
  | a :: as, b :: bs => if a < b then true else if b < a then false else lexLe as bs

/-- The total preorder realized by the default sort: `undefined` sorts after
everything; defined values compare as strings. -/
def jsLe (a b : Option JsonValue) : Bool :=
  match a, b with
  | none, none => true
  | none, some _ => false
  | some _, none => true
  | some x, some y => lexLe (utf16Key (jsStrV x)) (utf16Key (jsStrV y))

/-- Stable insertion with respect to `jsLe` (inserting after equal keys). -/
def insertLe (x : Option JsonValue) : List (Option JsonValue) → List (Option JsonValue)
  | [] => [x]
  | y :: ys => if jsLe y x then y :: insertLe x ys else x :: y :: ys

/-- `Array.prototype.sort()` with the default comparator, as a stable sort by
`jsLe` (ES2019 requires sort stability, so any stable sort realizes it). -/
def jsSortVals : List (Option JsonValue) → List (Option JsonValue)
  | [] => []
  | x :: xs => insertLe x (jsSortVals xs)

/-- The aggregation result: column name → collected values, insertion order. -/
abbrev UniqueValues : Type := List (String × List (Option JsonValue))

/-- `row[column]` on an object-shaped row: `undefined` (`none`) when the key
is absent. -/
def rowLookup (r : OutRow) (k : String) : Option JsonValue :=
  match r with
  | .obj fields => ((fields.find? (fun kv => kv.1 = k)).map (fun kv => kv.2)).getD none
  | .arr _ => none

/-- The per-row `columns.forEach` body of `getUniqueValues`
(source lines 862-874). -/
def aggRow (limit : Int) (columns : List String)
    (st : UniqueValues × List (String × Int)) (row : OutRow) :
    UniqueValues × List (String × Int) :=
  columns.foldl
    (fun st column =>
      let result := if (lookupA st.1 column).isNone then setA st.1 column [] else st.1
      let counts := st.2
      let cnt := (lookupA counts column).getD 0
      let v := rowLookup row column
      if cnt < limit ∧ v ≠ some .jnull ∧ ((lookupA result column).getD []).contains v = false
      then (setA result column (((lookupA result column).getD []) ++ [v]),
        setA counts column (cnt + 1))
      else (result, counts))
    st

/-- The `for await` loop of `getUniqueValues` with its all-columns-full early
stop (source lines 857-884). -/
def aggLoop (limit : Int) (columns : List String) :
    List OutRow → UniqueValues × List (String × Int) → UniqueValues × List (String × Int)
  | [], st => st
  | row :: rows, st =>
    let st' := aggRow limit columns st row
    let isFinished := st'.2.all (fun kv => kv.2 ≥ limit)
    if isFinished then st' else aggLoop limit columns rows st'

structure UniqueValuesProps where
  columns : List String
  limit : Option Int := none
  bufferLength : Option Int := none
  sort : Option Bool := none

/-- `getUniqueValues` (source lines 814-894). -/
def getUniqueValues (text : String) (s : Session) (props : UniqueValuesProps) :
    Except String UniqueValues := do
  let limit := props.limit.getD 100
  let bufferLength := props.bufferLength.getD 1000
  let sort := props.sort.getD true
  let s1 ←
    if s.metadataLoaded = false then do
      let r ← getMetadata text s
      pure r.2
    else pure s
  let resolve := fun (item : String) =>
    s1.metadata.columns.find? (fun column => lowerStr column.name = lowerStr item)
  let columns := props.columns.map (fun item =>
    match resolve item with
    | some column => column.name
    | none => "")
  let notFoundColumns := props.columns.filter (fun item => (resolve item).isNone)
  if notFoundColumns.length > 0 then
    throw ("Columns " ++ String.intercalate ", " notFoundColumns ++ " not found")
  let initCounts := columns.foldl (fun acc c => setA acc c 0) []
  let r ← readRecords text s1
    { start := none, bufferLength := some bufferLength, type := some .object,
      filterColumns := some columns }
  let st := aggLoop limit columns r.1 ([], initCounts)
  pure (if sort then st.1.map (fun kv => (kv.1, jsSortVals kv.2)) else st.1)

/-! ## Incremental writer (§4.5)

The sink is modelled as the character content it observes, in order.  The
backpressure queue (source lines 900-917) serializes writes so the sink sees
them in submission order; buffering (`highWaterMark`) and gzip compression
(`compressionLevel`) do not change that content, so a compressed session's
sink holds the pre-compression characters. -/

inductive WMode where
  | json : WMode
  | ndjson : WMode
deriving DecidableEq

structure WriteSession where
  isNdJson : Bool
  isCompressed : Bool
  streamActive : Bool
  writeMode : Option WMode
  isFirstWrite : Bool
  sink : String
deriving DecidableEq

/-- A write session before any `create` call. -/
def freshWriteSession (isNdJson : Bool) (isCompressed : Bool) : WriteSession :=
  { isNdJson, isCompressed, streamActive := false, writeMode := none,
    isFirstWrite := true, sink := "" }

inductive WriteAction where
  | create : WriteAction
  | write : WriteAction
  | finalize : WriteAction
deriving DecidableEq

structure WriteProps where
  metadata : Option DatasetMetadata := none
  data : Option (List (List JsonValue)) := none
  action : WriteAction
  prettify : Bool := false
  indentSize : Nat := 2

/-- The outcome of a `write` call: a thrown error leaves the session in the
state it had reached when the `throw` ran (the source throws before touching
any state, which the theorems below make explicit). -/
inductive WriteRes where
  | ok (s : WriteSession) : WriteRes
  | err (msg : String) (s : WriteSession) : WriteRes
deriving DecidableEq

mutual

/-- `JSON.stringify(v, null, ind)`: the pretty serialization at indentation
level `cur` (in characters).  Executable model, used only by the prettified
writer branches. -/
def pstrV (ind : Nat) (cur : Nat) : JsonValue → List Char
  | .jarr .nil => ['[', ']']
  | .jarr (.cons v a) =>
    '[' :: '\n' :: (List.replicate (cur + ind) ' ' ++ pstrA ind (cur + ind) (.cons v a)
      ++ '\n' :: List.replicate cur ' ' ++ [']'])
  | .jobj .nil => ['{', '}']
  | .jobj (.cons k v o) =>
    '{' :: '\n' :: (List.replicate (cur + ind) ' ' ++ pstrO ind (cur + ind) (.cons k v o)
      ++ '\n' :: List.replicate cur ' ' ++ ['}'])
  | v => strV v

def pstrA (ind : Nat) (cur : Nat) : JsonArr → List Char
  | .nil => []
  | .cons v .nil => pstrV ind cur v
  | .cons v (.cons w a) =>
    pstrV ind cur v ++ ',' :: '\n' :: (List.replicate cur ' ' ++ pstrA ind cur (.cons w a))

def pstrO (ind : Nat) (cur : Nat) : JsonObj → List Char
  | .nil => []
  | .cons k v .nil => strLit k ++ ':' :: ' ' :: pstrV ind cur v
  | .cons k v (.cons k' w o) =>
    strLit k ++ ':' :: ' ' :: pstrV ind cur v ++
      ',' :: '\n' :: (List.replicate cur ' ' ++ pstrO ind cur (.cons k' w o))

end

/-- `prettify ? JSON.stringify(metadata, null, indentSize) : JSON.stringify(metadata)`. -/
def metaStr (pretty : Bool) (ind : Nat) (m : DatasetMetadata) : String :=
  if pretty then ⟨pstrV ind 0 (metaToJson m)⟩ else stringify (metaToJson m)

/-- The header text `create` emits in JSON mode (source lines 975-992): the
serialized metadata with the closing brace removed and the `rows` array
opened. -/
def createJsonHeader (pretty : Bool) (ind : Nat) (m : DatasetMetadata) : String :=
  let initialStr : String := ⟨(metaStr pretty ind m).data.dropLast⟩
  let initialStr := if pretty ∧ initialStr.endsWith "\n" then ⟨initialStr.data.dropLast⟩
    else initialStr
  initialStr ++ (if pretty then ",\n" ++ String.mk (List.replicate ind ' ') ++ "\"rows\": ["
    else ",\"rows\":[")

/-- One JSON-mode row chunk (source lines 1011-1020): each row is preceded by
a separator — nothing when it is the very first row written on the session
(`isFirstWrite && i === 0`), a comma otherwise — and serialized. -/
def writeRowsJson (pretty : Bool) (ind : Nat) : Bool → List (List JsonValue) → String
  | _, [] => ""
  | first, r :: rest =>
    let sep := if first then "" else ","
    (if pretty then
      sep ++ "\n" ++ String.mk (List.replicate (ind * 2) ' ') ++ stringify (.jarr (arrOfList r))
    else sep ++ stringify (.jarr (arrOfList r))) ++ writeRowsJson pretty ind false rest

/-- NDJSON-mode row chunks (source lines 1022-1026): one line per row. -/
def writeRowsNd : List (List JsonValue) → String
  | [] => ""
  | r :: rest => stringify (.jarr (arrOfList r)) ++ "\n" ++ writeRowsNd rest

/-- The `action === 'write'` branch (source lines 1002-1028). -/
def doWriteRows (s : WriteSession) (data : Option (List (List JsonValue)))
    (pretty : Bool) (ind : Nat) : WriteRes :=
  if s.streamActive = false then .err "No active write stream. Call create first." s
  else
    match data with
    | none => .ok s
    | some [] => .ok s
    | some rows =>
      if s.writeMode = some .json then
        .ok { s with
          sink := s.sink ++ writeRowsJson pretty ind s.isFirstWrite rows,
          isFirstWrite := false }
      else
        .ok { s with sink := s.sink ++ writeRowsNd rows, isFirstWrite := false }

/-- `write` (source lines 926-1055). -/
def write (s : WriteSession) (props : WriteProps) : WriteRes :=
  let pretty := if s.isCompressed ∧ props.prettify then false else props.prettify
  match props.action with
  | .create =>
    match props.metadata with
    | none => .err "Metadata is required for create action" s
    | some metadata =>
      let mode := if s.isNdJson then WMode.ndjson else WMode.json
      let s1 : WriteSession :=
        { s with
          writeMode := some mode, isFirstWrite := true, streamActive := true,
          sink := "" }
      let s2 :=
        if mode = .json then { s1 with sink := createJsonHeader pretty props.indentSize metadata }
        else { s1 with sink := stringify (metaToJson metadata) ++ "\n" }
      match props.data with
      | none => .ok s2
      | some d => doWriteRows s2 (some d) pretty props.indentSize
  | .write => doWriteRows s props.data pretty props.indentSize
  | .finalize =>
    if s.streamActive = false then .err "No active write stream. Call create first." s
    else
      match doWriteRows s props.data pretty props.indentSize with
      | .err m st => .err m st
      | .ok s1 =>
        let s2 :=
          if s1.writeMode = some .json then
            { s1 with
              sink := s1.sink ++
                (if pretty then
                  "\n" ++ String.mk (List.replicate props.indentSize ' ') ++ "]\n\x7d"
                else "]\x7d") }
          else s1
        .ok { s2 with streamActive := false, writeMode := none, isFirstWrite := true }

/-- `writeData` (source lines 1063-1095): `create`, then `write` when rows were
given, then `finalize`. -/
def writeData (s : WriteSession) (metadata : DatasetMetadata)
    (data : Option (List (List JsonValue))) (pretty : Bool := false) (ind : Nat := 2) :
    WriteRes :=
  match write s
    { metadata := some metadata, action := .create, prettify := pretty,
      indentSize := ind } with
  | .err m st => .err m st
  | .ok s1 =>
    let step2 :=
      match data with
      | some d =>
        if d.length ≠ 0 then
          write s1 { data := some d, action := .write, prettify := pretty, indentSize := ind }
        else .ok s1
      | none => .ok s1
    match step2 with
    | .err m st => .err m st
    | .ok s2 => write s2 { action := .finalize, prettify := pretty, indentSize := ind }

/-! ## Facts about the writer's output text -/

theorem hexDigitChar_toNat_ge (m : Nat) (h : m < 16) : 48 ≤ (hexDigitChar m).toNat := by
  rw [hexDigitChar]
  split
  · rw [toNat_charOfNat _ (by omega)]; omega
  · rw [toNat_charOfNat _ (by omega)]; omega

theorem natChars_no_nl (n : Nat) : '\n' ∉ natChars n := by
  have h10 : ('\n').toNat = 10 := by decide
  induction n using Nat.strong_induction_on with
  | _ n ih =>
    by_cases h : n < 10
    · rw [natChars_eqn, if_pos h]
      intro hm
      simp only [List.mem_singleton] at hm
      have ht := toNat_digitChar n h
      rw [← hm] at ht
      omega
    · rw [natChars_eqn, if_neg h]
      intro hm
      rcases List.mem_append.mp hm with hm | hm
      · exact ih (n / 10) (Nat.div_lt_self (by omega) (by omega)) hm
      · simp only [List.mem_singleton] at hm
        have hlt : n % 10 < 10 := Nat.mod_lt _ (by omega)
        have ht := toNat_digitChar (n % 10) hlt
        rw [← hm] at ht
        omega

theorem intChars_no_nl (n : Int) : '\n' ∉ intChars n := by
  rw [intChars]
  split
  · intro hm
    rcases List.mem_cons.mp hm with hm | hm
    · exact absurd hm (by decide)
    · exact natChars_no_nl _ hm
  · exact natChars_no_nl _

theorem escChar_no_nl (c : Char) : '\n' ∉ escChar c := by
  have h10 : ('\n').toNat = 10 := by decide
  rw [escChar]
  split
  · decide
  · split
    · decide
    · split
      · decide
      · split
        · decide
        · split
          · decide
          · split
            · decide
            · split
              · decide
              · split
                · rename_i h8
                  intro hm
                  simp only [List.mem_cons, List.not_mem_nil, or_false] at hm
                  rcases hm with h | h | h | h | h | h
                  · exact absurd h (by decide)
                  · exact absurd h (by decide)
                  · exact absurd h (by decide)
                  · exact absurd h (by decide)
                  · have hge := hexDigitChar_toNat_ge (c.toNat / 16) (by omega)
                    rw [← h] at hge
                    omega
                  · have hge := hexDigitChar_toNat_ge (c.toNat % 16) (by omega)
                    rw [← h] at hge
                    omega
                · rename_i h8
                  intro hm
                  simp only [List.mem_singleton] at hm
                  rw [← hm] at h8
                  exact h8 (by decide)

theorem escStr_no_nl (cs : List Char) : '\n' ∉ escStr cs := by
  induction cs with
  | nil => simp [escStr]
  | cons c t ih =>
    rw [escStr]
    intro hm
    rcases List.mem_append.mp hm with hm | hm
    · exact escChar_no_nl c hm
    · exact ih hm

theorem strLit_no_nl (s : String) : '\n' ∉ strLit s := by
  rw [strLit]
  intro hm
  rcases List.mem_cons.mp hm with hm | hm
  · exact absurd hm (by decide)
  · rcases List.mem_append.mp hm with hm | hm
    · exact escStr_no_nl _ hm
    · simp at hm

mutual

/-- Serialized values never contain a raw newline (it is escaped). -/
theorem strV_no_nl (v : JsonValue) : '\n' ∉ strV v := by
  cases v with
  | jnull => rw [strV]; decide
  | jbool b => cases b <;> (rw [strV]; decide)
  | jint n => rw [strV]; exact intChars_no_nl n
  | jstr s => rw [strV]; exact strLit_no_nl s
  | jarr a =>
    rw [strV]
    intro hm
    rcases List.mem_cons.mp hm with hm | hm
    · exact absurd hm (by decide)
    · rcases List.mem_append.mp hm with hm | hm
      · exact strA_no_nl a hm
      · simp at hm
  | jobj o =>
    rw [strV]
    intro hm
    rcases List.mem_cons.mp hm with hm | hm
    · exact absurd hm (by decide)
    · rcases List.mem_append.mp hm with hm | hm
      · exact strO_no_nl o hm
      · simp at hm

theorem strA_no_nl (a : JsonArr) : '\n' ∉ strA a := by
  cases a with
  | nil => rw [strA]; simp
  | cons v a' =>
    cases a' with
    | nil => rw [strA]; exact strV_no_nl v
    | cons w a'' =>
      rw [strA]
      intro hm
      rcases List.mem_append.mp hm with hm | hm
      · exact strV_no_nl v hm
      · rcases List.mem_cons.mp hm with hm | hm
        · exact absurd hm (by decide)
        · exact strA_no_nl (.cons w a'') hm

theorem strO_no_nl (o : JsonObj) : '\n' ∉ strO o := by
  cases o with
  | nil => rw [strO]; simp
  | cons k v o' =>
    cases o' with
    | nil =>
      rw [strO]
      intro hm
      rcases List.mem_append.mp hm with hm | hm
      · exact strLit_no_nl k hm
      · rcases List.mem_cons.mp hm with hm | hm
        · exact absurd hm (by decide)
        · exact strV_no_nl v hm
    | cons k' w o'' =>
      rw [strO]
      intro hm
      rcases List.mem_append.mp hm with hm | hm
      · rcases List.mem_append.mp hm with hm | hm
        · exact strLit_no_nl k hm
        · rcases List.mem_cons.mp hm with hm | hm
          · exact absurd hm (by decide)
          · exact strV_no_nl v hm
      · rcases List.mem_cons.mp hm with hm | hm
        · exact absurd hm (by decide)
        · exact strO_no_nl (.cons k' w o'') hm

end

/-- Joining lines, each terminated by a newline. -/
def joinNl : List (List Char) → List Char
  | [] => []
  | l :: ls => l ++ '\n' :: joinNl ls

theorem splitNl_append_nl (a : List Char) (rest : List Char) (ha : '\n' ∉ a) :
    splitNl (a ++ '\n' :: rest) = a :: splitNl rest := by
  induction a with
  | nil => simp [splitNl]
  | cons c t ih =>
    have hc : c ≠ '\n' := fun h => ha (h ▸ List.mem_cons_self c t)
    have ht : '\n' ∉ t := fun h => ha (List.mem_cons_of_mem c h)
    rw [List.cons_append, splitNl, if_neg hc, ih ht]

theorem splitNl_joinNl (lines : List (List Char)) (h : ∀ l ∈ lines, '\n' ∉ l) :
    splitNl (joinNl lines) = lines ++ [[]] := by
  induction lines with
  | nil => rfl
  | cons l ls ih =>
    rw [joinNl, splitNl_append_nl l _ (h l (List.mem_cons_self l ls)),
      ih (fun l' hl' => h l' (List.mem_cons_of_mem l hl'))]
    rfl

/-- Serializations are nonempty. -/
theorem strV_ne_nil (v : JsonValue) : strV v ≠ [] := by
  obtain ⟨c, t, heq, _⟩ := strV_head v
  rw [heq]
  simp

/-- `rlLines` of a text assembled from newline-free lines, each terminated by
a newline, is exactly those lines. -/
theorem rlLines_joinNl (lines : List (List Char)) (h : ∀ l ∈ lines, '\n' ∉ l) :
    rlLines ⟨joinNl lines⟩ = lines.map (fun l => (⟨l⟩ : String)) := by
  unfold rlLines
  rw [show (String.mk (joinNl lines)).data = joinNl lines from rfl,
    splitNl_joinNl lines h, List.map_append]
  simp only [List.map_cons, List.map_nil]
  rw [if_pos (by rw [List.getLast?_concat]), List.dropLast_concat]

/-! ## Scan characterizations for unfiltered reads -/

theorem jsonScan_noLength (start : Nat) (proj : JsonValue → OutRow) :
    ∀ (evs : List JsonValue) (pos fr : Nat) (acc : List OutRow),
    jsonScan start none none proj evs pos fr acc = .ended (acc ++ evs.map proj) := by
  intro evs
  induction evs with
  | nil => intro pos fr acc; simp [jsonScan]
  | cons v evs ih =>
    intro pos fr acc
    rw [jsonScan]
    simp only [Option.isSome_none, Bool.and_self, Bool.true_and, if_true, if_false,
      Bool.and_true]
    rw [ih]
    simp

theorem jsonScan_collect (start L : Nat) (proj : JsonValue → OutRow) :
    ∀ (evs : List JsonValue) (pos : Nat) (acc : List OutRow),
    start < pos → pos < start + L → start + L ≤ pos + evs.length →
    jsonScan start (some L) none proj evs pos 0 acc =
      .capped (acc ++ (evs.take (start + L - pos)).map proj) (start + L) := by
  intro evs
  induction evs with
  | nil =>
    intro pos acc h1 h2 h3
    simp at h3
    omega
  | cons v evs ih =>
    intro pos acc h1 h2 h3
    rw [jsonScan]
    have hgt : pos + 1 > start := by omega
    have hle : pos + 1 ≤ start + L := by omega
    simp only [Option.isSome_none, hgt, hle, decide_True, Bool.and_true, Bool.true_and,
      Bool.false_eq_true, if_false, if_true, decide_eq_true_eq]
    by_cases hcap : pos + 1 = start + L
    · rw [if_pos hcap]
      have htake : start + L - pos = 1 := by omega
      rw [htake, hcap]
      simp
    · rw [if_neg hcap]
      rw [ih (pos + 1) (acc ++ [proj v]) (by omega) (by omega) (by simp at h3 ⊢; omega)]
      have htake : start + L - pos = (start + L - (pos + 1)) + 1 := by omega
      rw [htake]
      simp

theorem jsonScan_capped (start L : Nat) (proj : JsonValue → OutRow) (hL : 1 ≤ L) :
    ∀ (evs : List JsonValue) (pos : Nat) (acc : List OutRow),
    pos ≤ start → start + L ≤ pos + evs.length →
    jsonScan start (some L) none proj evs pos 0 acc =
      .capped (acc ++ ((evs.drop (start - pos)).take L).map proj) (start + L) := by
  intro evs
  induction evs with
  | nil =>
    intro pos acc h1 h2
    simp at h2
    omega
  | cons v evs ih =>
    intro pos acc h1 h2
    by_cases heq : pos = start
    · subst heq
      rw [jsonScan]
      have hgt : pos + 1 > pos := by omega
      have hle : pos + 1 ≤ pos + L := by omega
      simp only [Option.isSome_none, hgt, hle, decide_True, Bool.and_true, Bool.true_and,
        Bool.false_eq_true, if_false, if_true, decide_eq_true_eq]
      by_cases hcap : L = 1
      · rw [if_pos (by omega)]
        subst hcap
        simp
      · rw [if_neg (by omega)]
        rw [jsonScan_collect pos L proj evs (pos + 1) (acc ++ [proj v]) (by omega)
          (by omega) (by simp at h2 ⊢; omega)]
        have htake : pos + L - (pos + 1) = L - 1 := by omega
        rw [htake]
        have hdrop : pos - pos = 0 := by omega
        rw [hdrop]
        simp only [List.drop_zero]
        have htk : (v :: evs).take L = v :: evs.take (L - 1) := by
          cases L with
          | zero => omega
          | succ L2 => simp
        rw [htk]
        simp
    · have hlt : pos < start := by omega
      rw [jsonScan]
      have hngt : ¬(pos + 1 > start) := by omega
      have hncap : ¬(pos + 1 = start + L) := by omega
      simp only [Option.isSome_none, hngt, decide_False, Bool.false_and, Bool.and_true,
        Bool.true_and, Bool.false_eq_true, if_false, if_true, decide_eq_true_eq]
      rw [if_neg hncap]
      rw [ih (pos + 1) acc (by omega) (by simp at h2 ⊢; omega)]
      have hdrop : start - pos = (start - (pos + 1)) + 1 := by omega
      rw [hdrop]
      simp

theorem stringify_length_pos (v : JsonValue) : (stringify v).length > 0 := by
  have h := strV_ne_nil v
  show (strV v).length > 0
  cases hv : strV v with
  | nil => exact absurd hv h
  | cons c t => simp

/-- An NDJSON line scan past the first line behaves exactly like the JSON
event scan on the parsed values: every serialized line is nonempty and
`JSON.parse` recovers the value. -/
theorem ndScan_sim (start : Nat) (length : Option Nat) (pred : Option (JsonValue → Bool))
    (proj : JsonValue → OutRow) :
    ∀ (rows : List JsonValue) (pos fr : Nat) (acc : List OutRow),
    ndScan start length pred proj (rows.map (fun v => stringify v)) pos false fr acc =
      (match jsonScan start length pred proj rows pos fr acc with
       | .capped d p => NdOut.capped d p
       | .ended d => NdOut.ended d) := by
  intro rows
  induction rows with
  | nil =>
    intro pos fr acc
    simp [ndScan, jsonScan]
  | cons v rows ih =>
    intro pos fr acc
    have hlen : decide ((stringify v).length > 0) = true := by
      simpa using stringify_length_pos v
    rw [List.map_cons, ndScan]
    simp only [jsonScan, hlen, Bool.and_true, parseStr_stringify, Bool.false_eq_true,
      and_false, if_false]
    cases length with
    | none =>
      cases pred with
      | none => simp only [Option.isSome_none]; simp [ih]
      | some p =>
        simp only [Option.isSome_some]
        by_cases hm : p v = true <;> simp [hm, ih] <;> first | rfl | (split <;> rfl)
    | some l =>
      cases pred with
      | none =>
        simp only [Option.isSome_none, Bool.false_eq_true, if_false]
        by_cases hb1 : pos + 1 > start
        · by_cases hb2 : pos + 1 ≤ start + l
          · by_cases hc : pos + 1 = start + l
            · simp [hb1, hb2, hc] <;> first | rfl | (split <;> rfl)
            · simp [hb1, hb2, hc, ih] <;> first | rfl | (split <;> rfl)
          · by_cases hc : pos + 1 = start + l
            · omega
            · simp [hb1, hb2, hc, ih] <;> first | rfl | (split <;> rfl)
        · by_cases hc : pos + 1 = start + l
          · simp [hb1, hc] <;> first | rfl | (split <;> rfl)
          · simp [hb1, hc, ih] <;> first | rfl | (split <;> rfl)
      | some p =>
        simp only [Option.isSome_some, if_true]
        by_cases hb1 : pos + 1 > start
        · by_cases hb2 : fr < l
          · by_cases hm : p v = true
            · by_cases hc : fr + 1 = l
              · simp [hb1, hb2, hm, hc] <;> first | rfl | (split <;> rfl)
              · simp [hb1, hb2, hm, hc, ih] <;> first | rfl | (split <;> rfl)
            · by_cases hc : fr = l
              · simp [hb1, hb2, hm, hc] <;> first | rfl | (split <;> rfl)
              · simp [hb1, hb2, hm, hc, ih] <;> first | rfl | (split <;> rfl)
          · by_cases hc : fr = l
            · simp [hb1, hb2, hc] <;> first | rfl | (split <;> rfl)
            · simp [hb1, hb2, hc, ih] <;> first | rfl | (split <;> rfl)
        · by_cases hc : fr = l
          · simp [hb1, hc] <;> first | rfl | (split <;> rfl)
          · simp [hb1, hc, ih] <;> first | rfl | (split <;> rfl)

/-! ## The documents `writeData` produces -/

/-- A data row as the JSON value `JSON.stringify` serializes. -/
def rowJson (r : List JsonValue) : JsonValue := .jarr (arrOfList r)

/-- The NDJSON text `writeData` produces: metadata line, then one line per
row, each newline-terminated. -/
def ndDocText (m : DatasetMetadata) (rows : List (List JsonValue)) : String :=
  stringify (metaToJson m) ++ "\n" ++ writeRowsNd rows

/-- The JSON value whose compact serialization is the array-shape text
`writeData` produces: the metadata members followed by the `rows` member. -/
def docValue (m : DatasetMetadata) (rows : List (List JsonValue)) : JsonValue :=
  .jobj (objOfList (metaFields m ++ [("rows", .jarr (arrOfList (rows.map rowJson)))]))

theorem string_data_ext {a b : String} (h : a.data = b.data) : a = b := by
  cases a
  cases b
  exact congrArg String.mk h

theorem writeData_nd (comp : Bool) (m : DatasetMetadata) (rows : List (List JsonValue)) :
    writeData (freshWriteSession true comp) m (some rows) =
      .ok
        { isNdJson := true
          isCompressed := comp
          streamActive := false
          writeMode := none
          isFirstWrite := true
          sink := ndDocText m rows } := by
  cases rows with
  | nil =>
    show writeData (freshWriteSession true comp) m (some []) = _
    simp [writeData, write, doWriteRows, freshWriteSession, ndDocText, writeRowsNd]
  | cons r rest =>
    simp [writeData, write, doWriteRows, freshWriteSession, ndDocText]

theorem writeRowsNd_data (rows : List (List JsonValue)) :
    (writeRowsNd rows).data = joinNl (rows.map (fun r => strV (rowJson r))) := by
  induction rows with
  | nil => rfl
  | cons r rest ih =>
    rw [writeRowsNd, List.map_cons, joinNl]
    rw [String.data_append, String.data_append, ih]
    simp only [List.append_assoc]
    rfl

theorem ndDocText_data (m : DatasetMetadata) (rows : List (List JsonValue)) :
    (ndDocText m rows).data =
      joinNl (strV (metaToJson m) :: rows.map (fun r => strV (rowJson r))) := by
  rw [ndDocText, String.data_append, String.data_append, writeRowsNd_data, joinNl]
  simp only [List.append_assoc]
  rfl

theorem rlLines_ndDocText (m : DatasetMetadata) (rows : List (List JsonValue)) :
    rlLines (ndDocText m rows) =
      stringify (metaToJson m) :: rows.map (fun r => stringify (rowJson r)) := by
  have h1 : ndDocText m rows = ⟨joinNl (strV (metaToJson m) ::
      rows.map (fun r => strV (rowJson r)))⟩ := by
    apply string_data_ext
    rw [ndDocText_data m rows]
  have hno : ∀ l ∈ (strV (metaToJson m) :: rows.map (fun r => strV (rowJson r))),
      '\n' ∉ l := by
    intro l hl
    rcases List.mem_cons.mp hl with hl | hl
    · subst hl; exact strV_no_nl _
    · obtain ⟨r, _, rfl⟩ := List.mem_map.mp hl
      exact strV_no_nl _
  rw [h1, rlLines_joinNl _ hno]
  rw [List.map_cons, List.map_map]
  rfl

/-- The serialized tail of an object member list: empty for `nil`, a comma and
the members otherwise. -/
def strOTail : JsonObj → List Char
  | .nil => []
  | .cons k v o => ',' :: strO (.cons k v o)

theorem strO_cons (a : String) (b : JsonValue) (o : JsonObj) :
    strO (.cons a b o) = (strLit a ++ ':' :: strV b) ++ strOTail o := by
  cases o with
  | nil => rw [strO, strOTail]; try simp
  | cons k v o' => rw [strO, strOTail]; try simp

theorem strOTail_cons_arg (a : String) (b : JsonValue) (o : JsonObj) :
    strOTail (.cons a b o) = ',' :: strO (.cons a b o) := rfl

theorem strOTail_append_last (k : String) (v : JsonValue) :
    ∀ (fs : List (String × JsonValue)),
    strOTail (objOfList (fs ++ [(k, v)])) =
      strOTail (objOfList fs) ++ ',' :: (strLit k ++ ':' :: strV v) := by
  intro fs
  induction fs with
  | nil =>
    rw [List.nil_append, objOfList, objOfList, objOfList, strOTail, strOTail, strO]
    simp
  | cons x fs ih =>
    obtain ⟨xk, xv⟩ := x
    rw [List.cons_append, objOfList, objOfList, strOTail_cons_arg, strOTail_cons_arg,
      strO_cons, strO_cons, ih]
    simp [List.append_assoc]

theorem strO_objOfList_append_last (k : String) (v : JsonValue)
    (fs : List (String × JsonValue)) (hfs : fs ≠ []) :
    strO (objOfList (fs ++ [(k, v)])) =
      strO (objOfList fs) ++ ',' :: (strLit k ++ ':' :: strV v) := by
  cases fs with
  | nil => exact absurd rfl hfs
  | cons x fs2 =>
    obtain ⟨xk, xv⟩ := x
    rw [List.cons_append, objOfList, objOfList, strO_cons, strO_cons,
      ← List.cons_append, strOTail_append_last]
    simp [List.append_assoc]

/-- The serialized tail of a row list (the commas and rows after the first). -/
def strATail : List (List JsonValue) → List Char
  | [] => []
  | r :: rest => ',' :: strV (rowJson r) ++ strATail rest

theorem writeRowsJson_false_data (ind : Nat) :
    ∀ (rows : List (List JsonValue)),
    (writeRowsJson false ind false rows).data = strATail rows := by
  intro rows
  induction rows with
  | nil => rfl
  | cons r rest ih =>
    rw [writeRowsJson, strATail]
    simp only [Bool.false_eq_true, if_false]
    rw [String.data_append, ih]
    rfl

theorem strA_arrOfList_map :
    ∀ (rest : List (List JsonValue)) (r : List JsonValue),
    strA (arrOfList ((r :: rest).map rowJson)) = strV (rowJson r) ++ strATail rest := by
  intro rest
  induction rest with
  | nil =>
    intro r
    rw [List.map_cons, List.map_nil, arrOfList, arrOfList, strA, strATail]
    simp
  | cons w rest2 ih =>
    intro r
    rw [List.map_cons, List.map_cons, arrOfList, arrOfList, strA, strATail]
    have h2 := ih w
    rw [List.map_cons, arrOfList] at h2
    rw [h2]
    simp

theorem metaStr_false_data (ind : Nat) (m : DatasetMetadata) :
    (metaStr false ind m).data = '{' :: (strO (objOfList (metaFields m)) ++ ['}']) := rfl

theorem createJsonHeader_data (ind : Nat) (m : DatasetMetadata) :
    (createJsonHeader false ind m).data =
      ('{' :: strO (objOfList (metaFields m))) ++
        [',', '"', 'r', 'o', 'w', 's', '"', ':', '['] := by
  unfold createJsonHeader
  simp only [Bool.false_eq_true, false_and, if_false]
  rw [String.data_append]
  have h1 : ((⟨(metaStr false ind m).data.dropLast⟩ : String)).data =
      (metaStr false ind m).data.dropLast := rfl
  rw [h1, metaStr_false_data]
  have h2 : ('{' :: (strO (objOfList (metaFields m)) ++ ['}'])) =
      ('{' :: strO (objOfList (metaFields m))) ++ ['}'] := by simp
  rw [h2, List.dropLast_concat]

theorem metaFields_ne_nil (m : DatasetMetadata) : metaFields m ≠ [] := by
  rw [metaFields]
  simp

theorem strLit_rows : strLit "rows" = ['"', 'r', 'o', 'w', 's', '"'] := by decide

theorem docValue_data (m : DatasetMetadata) (rows : List (List JsonValue)) :
    (stringify (docValue m rows)).data =
      (('{' :: strO (objOfList (metaFields m))) ++
        [',', '"', 'r', 'o', 'w', 's', '"', ':', '[']) ++
        (strA (arrOfList (rows.map rowJson)) ++ [']', '}']) := by
  show strV (docValue m rows) = _
  rw [docValue, strV, strO_objOfList_append_last _ _ _ (metaFields_ne_nil m), strLit_rows,
    strV]
  simp [List.append_assoc]

theorem writeData_json (comp : Bool) (m : DatasetMetadata) (rows : List (List JsonValue)) :
    writeData (freshWriteSession false comp) m (some rows) =
      .ok
        { isNdJson := false
          isCompressed := comp
          streamActive := false
          writeMode := none
          isFirstWrite := true
          sink := stringify (docValue m rows) } := by
  cases rows with
  | nil =>
    show writeData (freshWriteSession false comp) m (some []) = _
    have hsink : createJsonHeader false 2 m ++ "]\x7d" = stringify (docValue m ([] : List (List JsonValue))) := by
      apply string_data_ext
      rw [String.data_append, createJsonHeader_data, docValue_data]
      rw [List.map_nil, arrOfList, strA]
      simp
    simp [writeData, write, doWriteRows, freshWriteSession, ← hsink]
  | cons r rest =>
    have hsink : createJsonHeader false 2 m ++ writeRowsJson false 2 true (r :: rest)
        ++ "]\x7d" = stringify (docValue m (r :: rest)) := by
      apply string_data_ext
      rw [String.data_append, String.data_append, createJsonHeader_data, docValue_data]
      rw [writeRowsJson]
      simp only [Bool.false_eq_true, if_false, if_true]
      rw [String.data_append, writeRowsJson_false_data, strA_arrOfList_map]
      have hr : ("" ++ stringify (JsonValue.jarr (arrOfList r))).data =
          strV (rowJson r) := by
        rw [String.data_append]
        rfl
      rw [hr]
      simp [List.append_assoc]
    simp [writeData, write, doWriteRows, freshWriteSession, ← hsink]

/-! ## Reading back what was written -/

theorem jsonToColumn_columnToJson (c : Column) : jsonToColumn (columnToJson c) = c := by
  obtain ⟨a, b, d, e⟩ := c
  simp +decide [jsonToColumn, columnToJson, objOfList, listOfObj, objLookup, asString]

theorem jsonToColumns_colsToJson (cols : List Column) :
    jsonToColumns (colsToJson cols) = cols := by
  rw [colsToJson, jsonToColumns, listOfArr_arrOfList, List.map_map]
  rw [show (jsonToColumn ∘ columnToJson) = id from funext jsonToColumn_columnToJson]
  exact List.map_id cols

/-- The key set the writer's metadata serialization contributes. -/
def metaSeenKeys : List String :=
  ["datasetJSONCreationDateTime", "datasetJSONVersion", "records", "name", "label",
   "columns", "studyOID", "metaDataVersionOID"]

theorem applyFields_metaFields (m : DatasetMetadata) :
    applyFields (emptyMetadata, []) (metaFields m) = (m, metaSeenKeys) := by
  simp +decide [applyFields, metaFields, applyField, knownKeys, asString, asInt,
    jsonToColumns_colsToJson, emptyMetadata, metaSeenKeys]

theorem checkAttributesParsed_metaSeen : checkAttributesParsed metaSeenKeys = true := by
  decide

theorem applyFields_append (st : DatasetMetadata × List String)
    (a b : List (String × JsonValue)) :
    applyFields st (a ++ b) = applyFields (applyFields st a) b := by
  simp [applyFields, List.foldl_append]

theorem docViewOf_written (m : DatasetMetadata) (rows : List (List JsonValue)) :
    docViewOf (stringify (docValue m rows)) = some
      { headerFields := metaFields m
        rows := rows.map rowJson
        footerFields := []
        allFields := metaFields m ++ [("rows", .jarr (arrOfList (rows.map rowJson)))] } := by
  rw [docViewOf, parseStr_stringify]
  simp only [docValue, listOfObj_objOfList]
  simp +decide [metaFields, listOfArr_arrOfList]

theorem getJsonMetadata_written (m : DatasetMetadata) (rows : List (List JsonValue))
    (s : Session) :
    getJsonMetadata (stringify (docValue m rows)) s =
      .ok (m, { s with metadata := m, metadataLoaded := true, stream := .noStream }) := by
  rw [getJsonMetadata, docViewOf_written]
  cases rows with
  | nil =>
    have hext : applyFields (emptyMetadata, [])
        (metaFields m ++ [("rows", JsonValue.jarr (arrOfList []))]) =
        (m, metaSeenKeys) := by
      rw [applyFields_append, applyFields_metaFields]
      simp +decide [applyFields]
    simp [hext, checkAttributesParsed_metaSeen]
  | cons r rest =>
    simp [applyFields_metaFields, checkAttributesParsed_metaSeen]

theorem getNdjsonMetadata_written (m : DatasetMetadata) (rows : List (List JsonValue))
    (s : Session) :
    getNdjsonMetadata (ndDocText m rows) s =
      .ok (m, { s with metadata := m, metadataLoaded := true, stream := .noStream }) := by
  rw [getNdjsonMetadata, rlLines_ndDocText]
  simp [metaToJson, parseStr_stringify, listOfObj_objOfList, applyFields_metaFields,
    checkAttributesParsed_metaSeen]

theorem getMetadata_written_json (m : DatasetMetadata) (rows : List (List JsonValue))
    (s : Session) (hload : s.metadataLoaded = false) (hnd : s.isNdJson = false) :
    getMetadata (stringify (docValue m rows)) s =
      .ok (m, { s with metadata := m, metadataLoaded := true, stream := .noStream }) := by
  rw [getMetadata, if_neg (by simp [hload]), if_neg (by simp [hnd]),
    getJsonMetadata_written]

theorem getMetadata_written_nd (m : DatasetMetadata) (rows : List (List JsonValue))
    (s : Session) (hload : s.metadataLoaded = false) (hnd : s.isNdJson = true) :
    getMetadata (ndDocText m rows) s =
      .ok (m, { s with metadata := m, metadataLoaded := true, stream := .noStream }) := by
  rw [getMetadata, if_neg (by simp [hload]), if_pos hnd, getNdjsonMetadata_written]

theorem map_arr_projectRow (rows : List JsonValue) :
    rows.map (projectRow .array [] [] []) = rows.map (fun v => OutRow.arr v) := by
  simp [projectRow]

/-- An unbounded (`length` absent), unfiltered array-shape read on a closed
stream returns every row event from the start of the document. -/
theorem getJsonData_all (m : DatasetMetadata) (rows : List (List JsonValue))
    (s : Session) (hstream : s.stream = .noStream) :
    getJsonData (stringify (docValue m rows)) s { filterColumns := [] } =
      .ok (rows.map (fun r => OutRow.arr (rowJson r)),
        { s with allRowsRead := true, stream := .noStream }) := by
  rw [getJsonData, docViewOf_written]
  simp only [hstream]
  rw [if_pos (Or.inl trivial)]
  simp only [Option.getD_none, Option.map_none', Int.toNat_zero, List.map_nil]
  rw [jsonScan_noLength]
  simp [List.map_map, projectRow]

/-- A bounded, unfiltered array-shape read on a closed stream: the stream is
reopened from 0, rows `[start, start+L)` are returned, and the paused parser
and cursor sit at `start + L`. -/
theorem getJsonData_capped_restart (m : DatasetMetadata) (rows : List (List JsonValue))
    (s : Session) (start L : Nat) (hL : 1 ≤ L) (hbound : start + L ≤ rows.length)
    (hstream : s.stream = .noStream) :
    getJsonData (stringify (docValue m rows)) s
      { start := some (start : Int), length := some (L : Int), filterColumns := [] } =
      .ok ((((rows.map rowJson).drop start).take L).map (fun v => OutRow.arr v),
        { s with currentPosition := start + L, stream := .jsonRows (start + L) }) := by
  rw [getJsonData, docViewOf_written]
  simp only [hstream]
  rw [if_pos (Or.inl trivial)]
  simp only [Option.getD_some, Option.map_some', Int.toNat_ofNat]
  rw [jsonScan_capped start L _ hL _ 0 [] (Nat.zero_le start) (by simpa using hbound)]
  simp [List.map_map, Function.comp_def, projectRow, Nat.sub_zero]

/-- A bounded, unfiltered array-shape read continuing an open paused parser
whose position equals the cursor: rows `[start, start+L)` are returned and
cursor and parser move to `start + L`. -/
theorem getJsonData_capped_continue (m : DatasetMetadata) (rows : List (List JsonValue))
    (s : Session) (start L : Nat) (hL : 1 ≤ L) (hbound : start + L ≤ rows.length)
    (hstream : s.stream = .jsonRows s.currentPosition) (hcur : s.currentPosition ≤ start) :
    getJsonData (stringify (docValue m rows)) s
      { start := some (start : Int), length := some (L : Int), filterColumns := [] } =
      .ok ((((rows.map rowJson).drop start).take L).map (fun v => OutRow.arr v),
        { s with currentPosition := start + L, stream := .jsonRows (start + L) }) := by
  rw [getJsonData, docViewOf_written]
  simp only [hstream]
  rw [if_neg (by
    simp only [Option.getD_some, Int.toNat_ofNat]
    push_neg
    exact ⟨by simp, by omega⟩)]
  simp only [Option.getD_some, Option.map_some', Int.toNat_ofNat]
  rw [jsonScan_capped start L _ hL _ s.currentPosition [] hcur
    (by simp [List.length_drop]; omega)]
  rw [List.drop_drop]
  have hd : s.currentPosition + (start - s.currentPosition) = start := by omega
  rw [hd]
  have hpos : s.currentPosition + (start + L - s.currentPosition) = start + L := by omega
  simp [List.map_map, Function.comp_def, projectRow, hpos]

theorem map_stringify_rowJson (rows : List (List JsonValue)) :
    rows.map (fun r => stringify (rowJson r)) =
      (rows.map rowJson).map (fun v => stringify v) := by
  rw [List.map_map]
  rfl

/-- An unbounded, unfiltered array-shape NDJSON read on a closed stream skips
the metadata line and returns every data row; the cursor is untouched. -/
theorem getNdjsonData_all (m : DatasetMetadata) (rows : List (List JsonValue))
    (s : Session) (hstream : s.stream = .noStream) :
    getNdjsonData (ndDocText m rows) s { filterColumns := [] } =
      .ok (rows.map (fun r => OutRow.arr (rowJson r)),
        { s with allRowsRead := true, stream := .noStream }) := by
  rw [getNdjsonData]
  simp only [hstream]
  rw [if_pos (Or.inl trivial), rlLines_ndDocText, ndScan, if_pos ⟨rfl, rfl⟩,
    map_stringify_rowJson, ndScan_sim]
  simp only [Option.map_none']
  rw [jsonScan_noLength]
  simp [List.map_map, Function.comp_def, projectRow]

/-- A bounded, unfiltered array-shape NDJSON read on a closed stream returns
rows `[start, start+L)` but then resets the cursor to 0, closes the stream and
marks the session exhausted. -/
theorem getNdjsonData_capped (m : DatasetMetadata) (rows : List (List JsonValue))
    (s : Session) (start L : Nat) (hL : 1 ≤ L) (hbound : start + L ≤ rows.length)
    (hstream : s.stream = .noStream) :
    getNdjsonData (ndDocText m rows) s
      { start := some (start : Int), length := some (L : Int), filterColumns := [] } =
      .ok ((((rows.map rowJson).drop start).take L).map (fun v => OutRow.arr v),
        { s with currentPosition := 0, stream := .noStream, allRowsRead := true }) := by
  rw [getNdjsonData]
  simp only [hstream]
  rw [if_pos (Or.inl trivial), rlLines_ndDocText, ndScan, if_pos ⟨rfl, rfl⟩,
    map_stringify_rowJson, ndScan_sim]
  simp only [Option.getD_some, Option.map_some', Int.toNat_ofNat]
  rw [jsonScan_capped start L _ hL _ 0 [] (Nat.zero_le start) (by simpa using hbound)]
  simp [List.map_map, Function.comp_def, projectRow]

/-- `getData` without `start`/`length` on a freshly constructed JSON session:
metadata is loaded on demand and all rows come back in order. -/
theorem getData_json_all (m : DatasetMetadata) (rows : List (List JsonValue))
    (s : Session) (hload : s.metadataLoaded = false) (hnd : s.isNdJson = false)
    (hcols : m.columns ≠ []) (hrec : 0 ≤ m.records) :
    getData (stringify (docValue m rows)) s {} =
      .ok (rows.map (fun r => OutRow.arr (rowJson r)),
        { s with
          metadata := m
          metadataLoaded := true
          allRowsRead := true
          stream := .noStream }) := by
  rw [getData]
  rw [if_pos hload]
  rw [getMetadata_written_json m rows s hload hnd]
  have hc : ¬ (m.columns.length = 0 ∨ m.records = -1) := by
    push_neg
    refine ⟨by simpa using hcols, by omega⟩
  simp only [bind, Except.bind, pure, Except.pure]
  rw [if_neg hc]
  rw [if_neg (by simp; omega)]
  rw [if_neg (by simp [hnd])]
  exact getJsonData_all m rows _ rfl

/-- `getData` with a `[start, start+L)` window on a freshly constructed JSON
session: metadata is loaded, the window is returned, the cursor lands on
`start + L` with the parser paused there. -/
theorem getData_json_capped_fresh (m : DatasetMetadata) (rows : List (List JsonValue))
    (s : Session) (start L : Nat) (hload : s.metadataLoaded = false)
    (hnd : s.isNdJson = false) (hcols : m.columns ≠ []) (hstart : (start : Int) ≤ m.records)
    (hL : 1 ≤ L) (hbound : start + L ≤ rows.length) :
    getData (stringify (docValue m rows)) s
      { start := some (start : Int), length := some (L : Int) } =
      .ok ((((rows.map rowJson).drop start).take L).map (fun v => OutRow.arr v),
        { s with
          metadata := m
          metadataLoaded := true
          currentPosition := start + L
          stream := .jsonRows (start + L) }) := by
  rw [getData]
  rw [if_pos hload]
  rw [getMetadata_written_json m rows s hload hnd]
  have hc : ¬ (m.columns.length = 0 ∨ m.records = -1) := by
    push_neg
    refine ⟨by simpa using hcols, by omega⟩
  simp only [bind, Except.bind, pure, Except.pure]
  rw [if_neg hc]
  rw [if_neg (by simp; omega)]
  rw [if_neg (by simp [hnd])]
  exact getJsonData_capped_restart m rows _ start L hL hbound rfl

/-- `getData` with a `[start, start+L)` window on a JSON session whose parser
is paused exactly at the cursor, with `cursor ≤ start`: the open stream is
reused and the cursor advances to `start + L`. -/
theorem getData_json_capped_next (m : DatasetMetadata) (rows : List (List JsonValue))
    (s : Session) (start L : Nat) (hload : s.metadataLoaded = true)
    (hnd : s.isNdJson = false) (hcols : s.metadata.columns ≠ [])
    (hstart : (start : Int) ≤ s.metadata.records) (hL : 1 ≤ L)
    (hbound : start + L ≤ rows.length)
    (hstream : s.stream = .jsonRows s.currentPosition) (hcur : s.currentPosition ≤ start) :
    getData (stringify (docValue m rows)) s
      { start := some (start : Int), length := some (L : Int) } =
      .ok ((((rows.map rowJson).drop start).take L).map (fun v => OutRow.arr v),
        { s with
          currentPosition := start + L
          stream := .jsonRows (start + L) }) := by
  rw [getData]
  rw [if_neg (by simp [hload])]
  have hc : ¬ (s.metadata.columns.length = 0 ∨ s.metadata.records = -1) := by
    push_neg
    refine ⟨by simpa using hcols, by omega⟩
  simp only [bind, Except.bind, pure, Except.pure]
  rw [if_neg hc]
  rw [if_neg (by simp; omega)]
  rw [if_neg (by simp [hnd])]
  exact getJsonData_capped_continue m rows s start L hL hbound hstream hcur

/-- `getData` without `start`/`length` on a freshly constructed NDJSON
session: metadata is loaded on demand and all rows come back in order. -/
theorem getData_nd_all (m : DatasetMetadata) (rows : List (List JsonValue))
    (s : Session) (hload : s.metadataLoaded = false) (hnd : s.isNdJson = true)
    (hcols : m.columns ≠ []) (hrec : 0 ≤ m.records) :
    getData (ndDocText m rows) s {} =
      .ok (rows.map (fun r => OutRow.arr (rowJson r)),
        { s with
          metadata := m
          metadataLoaded := true
          allRowsRead := true
          stream := .noStream }) := by
  rw [getData]
  rw [if_pos hload]
  rw [getMetadata_written_nd m rows s hload hnd]
  have hc : ¬ (m.columns.length = 0 ∨ m.records = -1) := by
    push_neg
    refine ⟨by simpa using hcols, by omega⟩
  simp only [bind, Except.bind, pure, Except.pure]
  rw [if_neg hc]
  rw [if_neg (by simp; omega)]
  rw [if_pos (by simp [hnd])]
  exact getNdjsonData_all m rows _ rfl

/-- `getData` with a `[start, start+L)` window on a freshly constructed NDJSON
session: the window is returned, but the cursor is reset to 0 and the session
is marked exhausted. -/
theorem getData_nd_capped_fresh (m : DatasetMetadata) (rows : List (List JsonValue))
    (s : Session) (start L : Nat) (hload : s.metadataLoaded = false)
    (hnd : s.isNdJson = true) (hcols : m.columns ≠ []) (hstart : (start : Int) ≤ m.records)
    (hL : 1 ≤ L) (hbound : start + L ≤ rows.length) :
    getData (ndDocText m rows) s
      { start := some (start : Int), length := some (L : Int) } =
      .ok ((((rows.map rowJson).drop start).take L).map (fun v => OutRow.arr v),
        { s with
          metadata := m
          metadataLoaded := true
          currentPosition := 0
          allRowsRead := true
          stream := .noStream }) := by
  rw [getData]
  rw [if_pos hload]
  rw [getMetadata_written_nd m rows s hload hnd]
  have hc : ¬ (m.columns.length = 0 ∨ m.records = -1) := by
    push_neg
    refine ⟨by simpa using hcols, by omega⟩
  simp only [bind, Except.bind, pure, Except.pure]
  rw [if_neg hc]
  rw [if_neg (by simp; omega)]
  rw [if_pos (by simp [hnd])]
  exact getNdjsonData_capped m rows _ start L hL hbound rfl

/-! ## Concrete dataset used by the evaluation and witness theorems -/

def colAGE : Column :=
  { itemOID := "IT.AGE", name := "AGE", label := "Age", dataType := "integer" }

def mW : DatasetMetadata :=
  { datasetJSONCreationDateTime := "2024-01-01T12:00:00", datasetJSONVersion := "1.1",
    records := 3, name := "DM", label := "Demographics", columns := [colAGE] }

def rowsW : List (List JsonValue) :=
  [[.jint 2], [.jint 10], [.jint 2]]

/-- A session whose metadata has already been loaded with `mW`. -/
def sLoaded : Session :=
  { isNdJson := false, isCompressed := false, metadata := mW, metadataLoaded := true,
    currentPosition := 0, allRowsRead := false, stream := .noStream }

/-- C9: on a session with no active write stream, `write` with action `write`
or `finalize` fails with "No active write stream. Call create first.", and on
any session `create` without metadata fails with "Metadata is required for
create action"; in each case the error carries the session unchanged, so in
particular nothing was appended to the sink. -/
theorem C9_write_state_machine_errors (s : WriteSession) (hs : s.streamActive = false)
    (pw pf pc : WriteProps) (hw : pw.action = .write) (hf : pf.action = .finalize)
    (hc : pc.action = .create) (hm : pc.metadata = none) :
    write s pw = .err "No active write stream. Call create first." s ∧
    write s pf = .err "No active write stream. Call create first." s ∧
    ∀ s' : WriteSession, write s' pc = .err "Metadata is required for create action" s' := by
  refine ⟨?_, ?_, ?_⟩
  · simp [write, hw, doWriteRows, hs]
  · simp [write, hf, hs]
  · intro s'
    simp [write, hc, hm]

theorem C9_write_state_machine_errors_witness :
    write (freshWriteSession false false) { action := .write } =
      .err "No active write stream. Call create first." (freshWriteSession false false) ∧
    write (freshWriteSession false false) { action := .finalize } =
      .err "No active write stream. Call create first." (freshWriteSession false false) ∧
    write (freshWriteSession true true) { action := .create } =
      .err "Metadata is required for create action" (freshWriteSession true true) := by
  obtain ⟨h1, h2, h3⟩ := C9_write_state_machine_errors (freshWriteSession false false) rfl
    { action := .write } { action := .finalize } { action := .create } rfl rfl rfl rfl
  exact ⟨h1, h2, h3 (freshWriteSession true true)⟩

/-- C10: on an active write session, `write` with action `write` and absent or
empty data returns the session unchanged — same sink, same `isFirstWrite`
flag, so a later row is still written as the first row. -/
theorem C10_write_empty_noop (s : WriteSession) (hs : s.streamActive = true)
    (p : WriteProps) (hp : p.action = .write)
    (hd : p.data = none ∨ p.data = some []) :
    write s p = .ok s := by
  rcases hd with hd | hd <;> simp [write, hp, doWriteRows, hs, hd]

theorem C10_write_empty_noop_witness :
    write
      { isNdJson := false
        isCompressed := false
        streamActive := true
        writeMode := some .json
        isFirstWrite := true
        sink := "header" }
      { action := .write, data := some [] } =
    WriteRes.ok
      { isNdJson := false
        isCompressed := false
        streamActive := true
        writeMode := some .json
        isFirstWrite := true
        sink := "header" } :=
  C10_write_empty_noop _ rfl _ rfl (Or.inr rfl)

/-- C8: with metadata loaded, requested column names are resolved against the
header case-insensitively; if any are unresolved, `getUniqueValues` rejects
with an error naming every unresolved column and returns no result. -/
theorem C8_unknown_columns (text : String) (s : Session) (props : UniqueValuesProps)
    (hload : s.metadataLoaded = true)
    (hnf : props.columns.filter (fun item =>
      (s.metadata.columns.find? (fun column => lowerStr column.name = lowerStr item)).isNone)
      ≠ []) :
    getUniqueValues text s props =
      .error ("Columns " ++ String.intercalate ", "
        (props.columns.filter (fun item =>
          (s.metadata.columns.find? (fun column =>
            lowerStr column.name = lowerStr item)).isNone)) ++ " not found") := by
  rw [getUniqueValues]
  rw [if_neg (by simp [hload])]
  simp only [bind, Except.bind, pure, Except.pure]
  rw [if_pos (by simpa [List.length_pos] using hnf)]

theorem C8_unknown_columns_witness :
    getUniqueValues "" sLoaded { columns := ["NOPE", "nah"] } =
      .error "Columns NOPE, nah not found" := by
  rw [C8_unknown_columns "" sLoaded { columns := ["NOPE", "nah"] } rfl (by decide)]
  rfl

/-- An unfiltered array-shape read with a `start` but no `length` on a closed
stream: the scan has no cap, and the accumulator starts empty and takes every
event, so `start` plays no role in the output. -/
theorem getJsonData_all_start (m : DatasetMetadata) (rows : List (List JsonValue))
    (s : Session) (k : Int) (hstream : s.stream = .noStream) :
    getJsonData (stringify (docValue m rows)) s { start := some k, filterColumns := [] } =
      .ok (rows.map (fun r => OutRow.arr (rowJson r)),
        { s with allRowsRead := true, stream := .noStream }) := by
  rw [getJsonData, docViewOf_written]
  simp only [hstream]
  rw [if_pos (Or.inl trivial)]
  simp only [Option.getD_some, Option.map_none', List.map_nil]
  rw [jsonScan_noLength]
  simp [List.map_map, Function.comp_def, projectRow]

theorem getNdjsonData_all_start (m : DatasetMetadata) (rows : List (List JsonValue))
    (s : Session) (k : Int) (hstream : s.stream = .noStream) :
    getNdjsonData (ndDocText m rows) s { start := some k, filterColumns := [] } =
      .ok (rows.map (fun r => OutRow.arr (rowJson r)),
        { s with allRowsRead := true, stream := .noStream }) := by
  rw [getNdjsonData]
  simp only [hstream]
  rw [if_pos (Or.inl trivial), rlLines_ndDocText, ndScan, if_pos ⟨rfl, rfl⟩,
    map_stringify_rowJson, ndScan_sim]
  simp only [Option.map_none']
  rw [jsonScan_noLength]
  simp [List.map_map, Function.comp_def, projectRow]

/-- `getData` with a `[start, start+L)` window on an NDJSON session whose
metadata is already loaded and whose stream is closed. -/
theorem getData_nd_capped_loaded (m : DatasetMetadata) (rows : List (List JsonValue))
    (s : Session) (start L : Nat) (hload : s.metadataLoaded = true)
    (hnd : s.isNdJson = true) (hcols : s.metadata.columns ≠ [])
    (hstart : (start : Int) ≤ s.metadata.records) (hL : 1 ≤ L)
    (hbound : start + L ≤ rows.length) (hstream : s.stream = .noStream) :
    getData (ndDocText m rows) s
      { start := some (start : Int), length := some (L : Int) } =
      .ok ((((rows.map rowJson).drop start).take L).map (fun v => OutRow.arr v),
        { s with
          currentPosition := 0
          allRowsRead := true
          stream := .noStream }) := by
  rw [getData]
  rw [if_neg (by simp [hload])]
  have hc : ¬ (s.metadata.columns.length = 0 ∨ s.metadata.records = -1) := by
    push_neg
    refine ⟨by simpa using hcols, by omega⟩
  simp only [bind, Except.bind, pure, Except.pure]
  rw [if_neg hc]
  rw [if_neg (by simp; omega)]
  rw [if_pos (by simp [hnd])]
  exact getNdjsonData_capped m rows s start L hL hbound hstream

/-! ## The order realized by the default sort -/

theorem lexLe_total : ∀ (a b : List Nat), lexLe a b = true ∨ lexLe b a = true := by
  intro a
  induction a with
  | nil =>
    intro b
    exact Or.inl (by simp [lexLe])
  | cons x xs ih =>
    intro b
    cases b with
    | nil => exact Or.inr (by simp [lexLe])
    | cons y ys =>
      by_cases h1 : x < y
      · exact Or.inl (by simp [lexLe, h1])
      · by_cases h2 : y < x
        · exact Or.inr (by simp [lexLe, h1, h2])
        · rcases ih ys with h | h
          · exact Or.inl (by simp [lexLe, h1, h2, h])
          · exact Or.inr (by simp [lexLe, h1, h2, h])

theorem lexLe_trans : ∀ (a b c : List Nat),
    lexLe a b = true → lexLe b c = true → lexLe a c = true := by
  intro a
  induction a with
  | nil =>
    intro b c _ _
    simp [lexLe]
  | cons x xs ih =>
    intro b c hab hbc
    cases b with
    | nil => simp [lexLe] at hab
    | cons y ys =>
      cases c with
      | nil => simp [lexLe] at hbc
      | cons z zs =>
        rw [lexLe] at hab hbc
        rw [lexLe]
        by_cases h1 : x < y
        · by_cases h2 : y < z
          · rw [if_pos (by omega)]
          · by_cases h3 : z < y
            · simp [h2, h3] at hbc
            · rw [if_pos (by omega)]
        · by_cases h1' : y < x
          · simp [h1, h1'] at hab
          · by_cases h2 : y < z
            · rw [if_pos (by omega)]
            · by_cases h3 : z < y
              · simp [h2, h3] at hbc
              · rw [if_neg (by omega), if_neg (by omega)]
                exact ih ys zs (by simpa [h1, h1'] using hab)
                  (by simpa [h2, h3] using hbc)

theorem jsLe_total (a b : Option JsonValue) : jsLe a b = true ∨ jsLe b a = true := by
  cases a with
  | none =>
    cases b with
    | none => exact Or.inl rfl
    | some y => exact Or.inr rfl
  | some x =>
    cases b with
    | none => exact Or.inl rfl
    | some y => exact lexLe_total _ _

theorem jsLe_trans (a b c : Option JsonValue)
    (hab : jsLe a b = true) (hbc : jsLe b c = true) : jsLe a c = true := by
  cases a with
  | none =>
    cases b with
    | none => exact hbc
    | some y => simp [jsLe] at hab
  | some x =>
    cases b with
    | none =>
      cases c with
      | none => rfl
      | some z => simp [jsLe] at hbc
    | some y =>
      cases c with
      | none => rfl
      | some z => exact lexLe_trans _ _ _ hab hbc

theorem mem_insertLe (x a : Option JsonValue) :
    ∀ l, a ∈ insertLe x l ↔ a = x ∨ a ∈ l := by
  intro l
  induction l with
  | nil => simp [insertLe]
  | cons y ys ih =>
    rw [insertLe]
    split
    · simp only [List.mem_cons, ih]
      try tauto
    · simp only [List.mem_cons]
      try tauto

theorem insertLe_pairwise (x : Option JsonValue) :
    ∀ l, List.Pairwise (fun a b => jsLe a b = true) l →
      List.Pairwise (fun a b => jsLe a b = true) (insertLe x l) := by
  intro l
  induction l with
  | nil =>
    intro _
    simp [insertLe]
  | cons y ys ih =>
    intro h
    rw [List.pairwise_cons] at h
    obtain ⟨hy, hys⟩ := h
    rw [insertLe]
    by_cases hxy : jsLe y x = true
    · rw [if_pos hxy, List.pairwise_cons]
      refine ⟨?_, ih hys⟩
      intro a ha
      rcases (mem_insertLe x a ys).mp ha with rfl | ha
      · exact hxy
      · exact hy a ha
    · rw [if_neg hxy, List.pairwise_cons]
      have hxy' : jsLe x y = true := by
        rcases jsLe_total x y with h | h
        · exact h
        · exact absurd h hxy
      refine ⟨?_, List.pairwise_cons.mpr ⟨hy, hys⟩⟩
      intro a ha
      rcases List.mem_cons.mp ha with rfl | ha
      · exact hxy'
      · exact jsLe_trans x y a hxy' (hy a ha)

/-- The default sort leaves each collected list ordered by `jsLe`. -/
theorem jsSortVals_pairwise : ∀ l : List (Option JsonValue),
    List.Pairwise (fun a b => jsLe a b = true) (jsSortVals l) := by
  intro l
  induction l with
  | nil => simp [jsSortVals]
  | cons x xs ih => exact insertLe_pairwise x _ ih

/-- A successful `getUniqueValues` call with sorting on returns, per column,
the collected list passed through `jsSortVals`. -/
theorem getUniqueValues_ok_sorted (text : String) (s : Session)
    (props : UniqueValuesProps) (uv : UniqueValues)
    (hsort : props.sort = none ∨ props.sort = some true)
    (hok : getUniqueValues text s props = .ok uv) :
    ∀ kv ∈ uv, ∃ l, kv.2 = jsSortVals l := by
  have hs : props.sort.getD true = true := by
    rcases hsort with h | h <;> simp [h]
  rw [getUniqueValues] at hok
  simp only [bind, Except.bind, pure, Except.pure, hs, if_true] at hok
  split at hok
  all_goals try split at hok
  all_goals try split at hok
  all_goals try split at hok
  all_goals try split at hok
  all_goals first
    | exact Except.noConfusion hok
    | (injection hok with hok
       subst hok
       intro kv hkv
       rcases List.mem_map.mp hkv with ⟨kv0, h1, h2⟩
       exact ⟨kv0.2, h2 ▸ rfl⟩)

/-- The concrete JSON document for the witness dataset. -/
def textW : String := stringify (docValue mW rowsW)

/-- The concrete NDJSON document for the witness dataset. -/
def textWnd : String := ndDocText mW rowsW

set_option maxRecDepth 400000 in
/-- C3: iterating the 3-row witness dataset to completion twice with fresh
`readRecords` calls (`bufferLength` 1) is NOT idempotent: the first traversal
yields all 3 rows (the header's declared count), the second only 1 —
`allRowsRead` survives the first traversal and stops the second loop after a
single buffer-sized chunk. -/
theorem C3_second_full_iteration_truncated :
    (match readRecords textW (freshSession false false) { bufferLength := some 1 } with
      | .ok (r1, s1) =>
        match readRecords textW s1 { bufferLength := some 1 } with
        | .ok (r2, _) => (r1.length, r2.length)
        | .error _ => (0, 0)
      | .error _ => (0, 0)) = (3, 1) ∧ mW.records = 3 :=
  ⟨rfl, rfl⟩

/-- C5: a `getData` call with a `start` but no `length` returns ALL rows of
the document, in both shapes — the `length === undefined` short-circuit in the
include condition discards `start`, so rows before `start` are not skipped. -/
theorem C5_start_ignored_without_length (m : DatasetMetadata)
    (rows : List (List JsonValue)) (sj sn : Session) (k : Int)
    (hjl : sj.metadataLoaded = false) (hjn : sj.isNdJson = false)
    (hnl : sn.metadataLoaded = false) (hnn : sn.isNdJson = true)
    (hcols : m.columns ≠ []) (hk0 : 0 ≤ k) (hk : k ≤ m.records) :
    getData (stringify (docValue m rows)) sj { start := some k } =
      .ok (rows.map (fun r => OutRow.arr (rowJson r)),
        { sj with
          metadata := m
          metadataLoaded := true
          allRowsRead := true
          stream := .noStream }) ∧
    getData (ndDocText m rows) sn { start := some k } =
      .ok (rows.map (fun r => OutRow.arr (rowJson r)),
        { sn with
          metadata := m
          metadataLoaded := true
          allRowsRead := true
          stream := .noStream }) := by
  constructor
  · rw [getData]
    rw [if_pos hjl]
    rw [getMetadata_written_json m rows sj hjl hjn]
    have hc : ¬ (m.columns.length = 0 ∨ m.records = -1) := by
      push_neg
      refine ⟨by simpa using hcols, by omega⟩
    simp only [bind, Except.bind, pure, Except.pure]
    rw [if_neg hc]
    rw [if_neg (by simp; omega)]
    rw [if_neg (by simp [hjn])]
    exact getJsonData_all_start m rows _ k rfl
  · rw [getData]
    rw [if_pos hnl]
    rw [getMetadata_written_nd m rows sn hnl hnn]
    have hc : ¬ (m.columns.length = 0 ∨ m.records = -1) := by
      push_neg
      refine ⟨by simpa using hcols, by omega⟩
    simp only [bind, Except.bind, pure, Except.pure]
    rw [if_neg hc]
    rw [if_neg (by simp; omega)]
    rw [if_pos (by simp [hnn])]
    exact getNdjsonData_all_start m rows _ k rfl

theorem C5_start_ignored_without_length_witness :
    getData textW (freshSession false false) { start := some 1 } =
      .ok (rowsW.map (fun r => OutRow.arr (rowJson r)),
        { freshSession false false with
          metadata := mW
          metadataLoaded := true
          allRowsRead := true
          stream := .noStream }) ∧
    getData textWnd (freshSession true false) { start := some 1 } =
      .ok (rowsW.map (fun r => OutRow.arr (rowJson r)),
        { freshSession true false with
          metadata := mW
          metadataLoaded := true
          allRowsRead := true
          stream := .noStream }) :=
  C5_start_ignored_without_length mW rowsW (freshSession false false)
    (freshSession true false) 1 rfl rfl rfl rfl (by decide) (by decide) (by decide)

set_option maxRecDepth 400000 in
/-- C6: `limit = 0` is NOT treated as unlimited: on the witness dataset the
aggregator collects nothing for `AGE` (the per-value check `count < 0` never
holds and the all-columns-full early stop fires on the first row), while the
same call with a large limit collects both distinct values. -/
theorem C6_limit_zero_collects_nothing :
    getUniqueValues textW (freshSession false false)
      { columns := ["AGE"], limit := some 0 } = .ok [("AGE", [])] ∧
    getUniqueValues textW (freshSession false false)
      { columns := ["AGE"], limit := some 100 } =
      .ok [("AGE", [some (JsonValue.jint 10), some (JsonValue.jint 2)])] :=
  ⟨rfl, rfl⟩

set_option maxRecDepth 400000 in
/-- C4 (counterexample): a bounded NDJSON read that hits its length cap does
not leave the cursor at `start + length`: reading rows `[0, 2)` of the witness
dataset returns 2 rows but resets `currentPosition` to 0 (and tears the
stream down, marking the session exhausted). -/
theorem C4_ndjson_cursor_reset_counterexample :
    getData textWnd (freshSession true false) { start := some 0, length := some 2 } =
      .ok ([OutRow.arr (rowJson [JsonValue.jint 2]), OutRow.arr (rowJson [JsonValue.jint 10])],
        { freshSession true false with
          metadata := mW
          metadataLoaded := true
          currentPosition := 0
          allRowsRead := true
          stream := .noStream }) :=
  rfl

/-- C4 (amended): after a successful bounded unfiltered read hitting its
length cap, the cursor contract holds for the JSON shape — `currentPosition =
start + length`, whether the parser was reopened or resumed — but for the
NDJSON shape the cursor is instead reset to 0, the stream closed and the
session marked exhausted. -/
theorem C4_cursor_after_capped_read (m : DatasetMetadata) (rows : List (List JsonValue))
    (s sc sn : Session) (start L : Nat) (hL : 1 ≤ L) (hbound : start + L ≤ rows.length)
    (h1 : s.metadataLoaded = false) (h2 : s.isNdJson = false)
    (hcols : m.columns ≠ []) (hstart : (start : Int) ≤ m.records)
    (h3 : sc.metadataLoaded = true) (h4 : sc.isNdJson = false)
    (h5 : sc.metadata.columns ≠ []) (h6 : (start : Int) ≤ sc.metadata.records)
    (h7 : sc.stream = .jsonRows sc.currentPosition) (h8 : sc.currentPosition ≤ start)
    (h9 : sn.metadataLoaded = false) (h10 : sn.isNdJson = true) :
    getData (stringify (docValue m rows)) s
      { start := some (start : Int), length := some (L : Int) } =
      .ok ((((rows.map rowJson).drop start).take L).map (fun v => OutRow.arr v),
        { s with
          metadata := m
          metadataLoaded := true
          currentPosition := start + L
          stream := .jsonRows (start + L) }) ∧
    getData (stringify (docValue m rows)) sc
      { start := some (start : Int), length := some (L : Int) } =
      .ok ((((rows.map rowJson).drop start).take L).map (fun v => OutRow.arr v),
        { sc with
          currentPosition := start + L
          stream := .jsonRows (start + L) }) ∧
    getData (ndDocText m rows) sn
      { start := some (start : Int), length := some (L : Int) } =
      .ok ((((rows.map rowJson).drop start).take L).map (fun v => OutRow.arr v),
        { sn with
          metadata := m
          metadataLoaded := true
          currentPosition := 0
          allRowsRead := true
          stream := .noStream }) :=
  ⟨getData_json_capped_fresh m rows s start L h1 h2 hcols hstart hL hbound,
   getData_json_capped_next m rows sc start L h3 h4 h5 h6 hL hbound h7 h8,
   getData_nd_capped_fresh m rows sn start L h9 h10 hcols hstart hL hbound⟩

/-- A JSON session paused at row 1, for the C4 witness. -/
def sPaused : Session :=
  { isNdJson := false, isCompressed := false, metadata := mW, metadataLoaded := true,
    currentPosition := 1, allRowsRead := false, stream := .jsonRows 1 }

theorem C4_cursor_after_capped_read_witness :
    getData textW (freshSession false false) { start := some 1, length := some 2 } =
      .ok ((((rowsW.map rowJson).drop 1).take 2).map (fun v => OutRow.arr v),
        { freshSession false false with
          metadata := mW
          metadataLoaded := true
          currentPosition := 3
          stream := .jsonRows 3 }) ∧
    getData textW sPaused { start := some 1, length := some 2 } =
      .ok ((((rowsW.map rowJson).drop 1).take 2).map (fun v => OutRow.arr v),
        { sPaused with
          currentPosition := 3
          stream := .jsonRows 3 }) ∧
    getData textWnd (freshSession true false) { start := some 1, length := some 2 } =
      .ok ((((rowsW.map rowJson).drop 1).take 2).map (fun v => OutRow.arr v),
        { freshSession true false with
          metadata := mW
          metadataLoaded := true
          currentPosition := 0
          allRowsRead := true
          stream := .noStream }) :=
  C4_cursor_after_capped_read mW rowsW (freshSession false false) sPaused
    (freshSession true false) 1 2 (by decide) (by decide) rfl rfl (by decide) (by decide)
    rfl rfl (by decide) (by decide) rfl (by decide) rfl rfl

/-- C7 (amended): a successful `getUniqueValues` call with sorting enabled
(explicitly or by default) returns, for every requested column, a value list
ordered by `jsLe` — the JavaScript default-sort order, which compares the
string representations of the values code unit by code unit, with `undefined`
last — not by the column's underlying data type. -/
theorem C7_sorted_by_default_string_order (text : String) (s : Session)
    (props : UniqueValuesProps) (uv : UniqueValues)
    (hsort : props.sort = none ∨ props.sort = some true)
    (hok : getUniqueValues text s props = .ok uv) :
    ∀ kv ∈ uv, List.Pairwise (fun a b => jsLe a b = true) kv.2 := by
  intro kv hkv
  obtain ⟨l, hl⟩ := getUniqueValues_ok_sorted text s props uv hsort hok kv hkv
  rw [hl]
  exact jsSortVals_pairwise l

set_option maxRecDepth 400000 in
theorem C7_sorted_by_default_string_order_witness :
    List.Pairwise (fun a b => jsLe a b = true)
      [some (JsonValue.jint 10), some (JsonValue.jint 2)] := by
  have h := C7_sorted_by_default_string_order textW (freshSession false false)
    { columns := ["AGE"] } [("AGE", [some (JsonValue.jint 10), some (JsonValue.jint 2)])]
    (Or.inl rfl) rfl
  exact h ("AGE", [some (JsonValue.jint 10), some (JsonValue.jint 2)]) (by simp)

set_option maxRecDepth 400000 in
/-- C7 (counterexample): on the witness dataset, whose `AGE` column holds the
integers 2 and 10, the sorted unique values come back as `[10, 2]` — the
string "10" precedes "2" — not in ascending numeric order. -/
theorem C7_numeric_order_counterexample :
    getUniqueValues textW (freshSession false false) { columns := ["AGE"] } =
      .ok [("AGE", [some (JsonValue.jint 10), some (JsonValue.jint 2)])] :=
  rfl

/-- C2: reading rows `[0,5)` then `[5,5)` further on the session the first
call left behind yields, concatenated, exactly what one `[0,10)` call yields,
in both document shapes. -/
theorem C2_resumable_read (m : DatasetMetadata) (rows : List (List JsonValue))
    (hcols : m.columns ≠ []) (hrec : (10 : Int) ≤ m.records) (hbound : 10 ≤ rows.length) :
    (∃ r1 s1 r2 s2 r s3,
      getData (stringify (docValue m rows)) (freshSession false false)
        { start := some 0, length := some 5 } = .ok (r1, s1) ∧
      getData (stringify (docValue m rows)) s1
        { start := some 5, length := some 5 } = .ok (r2, s2) ∧
      getData (stringify (docValue m rows)) (freshSession false false)
        { start := some 0, length := some 10 } = .ok (r, s3) ∧
      r1 ++ r2 = r) ∧
    (∃ r1 s1 r2 s2 r s3,
      getData (ndDocText m rows) (freshSession true false)
        { start := some 0, length := some 5 } = .ok (r1, s1) ∧
      getData (ndDocText m rows) s1
        { start := some 5, length := some 5 } = .ok (r2, s2) ∧
      getData (ndDocText m rows) (freshSession true false)
        { start := some 0, length := some 10 } = .ok (r, s3) ∧
      r1 ++ r2 = r) := by
  have hW : (((rows.map rowJson).drop 0).take 5).map (fun v => OutRow.arr v) ++
      (((rows.map rowJson).drop 5).take 5).map (fun v => OutRow.arr v) =
      (((rows.map rowJson).drop 0).take 10).map (fun v => OutRow.arr v) := by
    simp only [List.drop_zero, List.map_take, List.map_drop, List.map_map]
    rw [show (10 : Nat) = 5 + 5 from rfl, List.take_add]
  constructor
  · exact ⟨_, _, _, _, _, _,
      getData_json_capped_fresh m rows (freshSession false false) 0 5 rfl rfl hcols
        (by omega) (by omega) (by omega),
      getData_json_capped_next m rows _ 5 5 rfl rfl (by simpa using hcols)
        (by simp; omega) (by omega) (by omega) rfl (by simp),
      getData_json_capped_fresh m rows (freshSession false false) 0 10 rfl rfl hcols
        (by omega) (by omega) (by omega),
      hW⟩
  · exact ⟨_, _, _, _, _, _,
      getData_nd_capped_fresh m rows (freshSession true false) 0 5 rfl rfl hcols
        (by omega) (by omega) (by omega),
      getData_nd_capped_loaded m rows _ 5 5 rfl rfl (by simpa using hcols)
        (by simp; omega) (by omega) (by omega) rfl,
      getData_nd_capped_fresh m rows (freshSession true false) 0 10 rfl rfl hcols
        (by omega) (by omega) (by omega),
      hW⟩

/-- A 10-row dataset for the C2 witness. -/
def mW10 : DatasetMetadata := { mW with records := 10 }

def rowsW10 : List (List JsonValue) :=
  (List.range 10).map (fun i => [JsonValue.jint i])

theorem C2_resumable_read_witness :
    mW10.columns ≠ [] ∧ (10 : Int) ≤ mW10.records ∧ 10 ≤ rowsW10.length ∧
    ((∃ r1 s1 r2 s2 r s3,
      getData (stringify (docValue mW10 rowsW10)) (freshSession false false)
        { start := some 0, length := some 5 } = .ok (r1, s1) ∧
      getData (stringify (docValue mW10 rowsW10)) s1
        { start := some 5, length := some 5 } = .ok (r2, s2) ∧
      getData (stringify (docValue mW10 rowsW10)) (freshSession false false)
        { start := some 0, length := some 10 } = .ok (r, s3) ∧
      r1 ++ r2 = r) ∧
    (∃ r1 s1 r2 s2 r s3,
      getData (ndDocText mW10 rowsW10) (freshSession true false)
        { start := some 0, length := some 5 } = .ok (r1, s1) ∧
      getData (ndDocText mW10 rowsW10) s1
        { start := some 5, length := some 5 } = .ok (r2, s2) ∧
      getData (ndDocText mW10 rowsW10) (freshSession true false)
        { start := some 0, length := some 10 } = .ok (r, s3) ∧
      r1 ++ r2 = r)) :=
  ⟨by decide, by decide, by decide,
    C2_resumable_read mW10 rowsW10 (by decide) (by decide) (by decide)⟩

/-- C1: for every header with columns and a non-negative declared count, the
file `writeData` produces — in JSON shape, NDJSON shape, and the compressed
combination (where the constructor forces NDJSON and the gzip layer is a
lossless transport of the same text) — reads back, on a fresh session, as
exactly the original rows in order (`rowJson r = arrOfList r`, and
`listOfArr (arrOfList r) = r`), with `getMetadata` returning the written
header itself. -/
theorem C1_write_read_round_trip (m : DatasetMetadata) (rows : List (List JsonValue))
    (hcols : m.columns ≠ []) (hrec : 0 ≤ m.records) :
    writeData (freshWriteSession false false) m (some rows) =
      .ok
        { isNdJson := false
          isCompressed := false
          streamActive := false
          writeMode := none
          isFirstWrite := true
          sink := stringify (docValue m rows) } ∧
    getMetadata (stringify (docValue m rows)) (freshSession false false) =
      .ok (m, { freshSession false false with
        metadata := m
        metadataLoaded := true
        stream := .noStream }) ∧
    getData (stringify (docValue m rows)) (freshSession false false) {} =
      .ok (rows.map (fun r => OutRow.arr (rowJson r)),
        { freshSession false false with
          metadata := m
          metadataLoaded := true
          allRowsRead := true
          stream := .noStream }) ∧
    writeData (freshWriteSession true false) m (some rows) =
      .ok
        { isNdJson := true
          isCompressed := false
          streamActive := false
          writeMode := none
          isFirstWrite := true
          sink := ndDocText m rows } ∧
    getMetadata (ndDocText m rows) (freshSession true false) =
      .ok (m, { freshSession true false with
        metadata := m
        metadataLoaded := true
        stream := .noStream }) ∧
    getData (ndDocText m rows) (freshSession true false) {} =
      .ok (rows.map (fun r => OutRow.arr (rowJson r)),
        { freshSession true false with
          metadata := m
          metadataLoaded := true
          allRowsRead := true
          stream := .noStream }) ∧
    (∀ (filePath : String) (isNdJson : Option Bool),
      ctorIsNdJson filePath isNdJson (some true) = true) ∧
    writeData (freshWriteSession true true) m (some rows) =
      .ok
        { isNdJson := true
          isCompressed := true
          streamActive := false
          writeMode := none
          isFirstWrite := true
          sink := ndDocText m rows } ∧
    getData (ndDocText m rows) (freshSession true true) {} =
      .ok (rows.map (fun r => OutRow.arr (rowJson r)),
        { freshSession true true with
          metadata := m
          metadataLoaded := true
          allRowsRead := true
          stream := .noStream }) ∧
    (∀ r : List JsonValue, listOfArr (arrOfList r) = r) :=
  ⟨writeData_json false m rows,
   getMetadata_written_json m rows (freshSession false false) rfl rfl,
   getData_json_all m rows (freshSession false false) rfl rfl hcols hrec,
   writeData_nd false m rows,
   getMetadata_written_nd m rows (freshSession true false) rfl rfl,
   getData_nd_all m rows (freshSession true false) rfl rfl hcols hrec,
   fun filePath isNdJson => by simp [ctorIsNdJson, ctorIsCompressed],
   writeData_nd true m rows,
   getData_nd_all m rows (freshSession true true) rfl rfl hcols hrec,
   listOfArr_arrOfList⟩

theorem C1_write_read_round_trip_witness :
    mW.columns ≠ [] ∧ (0 : Int) ≤ mW.records ∧
    writeData (freshWriteSession false false) mW (some rowsW) =
      .ok
        { isNdJson := false
          isCompressed := false
          streamActive := false
          writeMode := none
          isFirstWrite := true
          sink := stringify (docValue mW rowsW) } ∧
    getData (stringify (docValue mW rowsW)) (freshSession false false) {} =
      .ok (rowsW.map (fun r => OutRow.arr (rowJson r)),
        { freshSession false false with
          metadata := mW
          metadataLoaded := true
          allRowsRead := true
          stream := .noStream }) :=
  ⟨by decide, by decide,
    (C1_write_read_round_trip mW rowsW (by decide) (by decide)).1,
    (C1_write_read_round_trip mW rowsW (by decide) (by decide)).2.2.1⟩

end DSJ
